import Mathlib

/-!
# automintv2 — `mainv2.js`

A shallow embedding of the script `mainv2.js` and the properties its
specification states about it.

The script is sequential glue around external services (a captcha solver, the
faucet's HTTP API, an RPC node, the `ethers` wallet).  The embedding keeps the
control flow of every function of the script and replaces each external call by
a read from a stream of replies held in the state:

* every external call consumes the next reply of its kind (an HTTP response or
  the lack of one, a transaction hash or a failure, a clock reading, ...), so
  quantifying over all states quantifies over every behaviour of the services;
* every piece of the script yields, with its outcome, the trace of what it did:
  each external call with the reply it got, and each console line;
* a JavaScript exception is the outcome `Res.throw`, caught only by `tryCatch`
  (the script's `try { } catch { }`);
* the loop `while (true)` of `solveTurnstile` runs on a fuel counter; the
  outcome `Res.pending` says that the loop is still polling when the fuel is
  used up.  `delay(5000)` is the passage of time and leaves no mark.
-/

namespace AutoMint

/-! ## Strings of the key file -/

/-- A JavaScript string: its sequence of UTF-16 code units, so that `List.length`
is the `.length` of the script. -/
abbrev JsString := List Nat

/-- The code unit of the line feed, the separator of `split("\n")`. -/
def LF : Nat := 10

/-- Code units removed by `String.prototype.trim`: ECMAScript `WhiteSpace` and
`LineTerminator`. -/
def isTrimUnit (c : Nat) : Bool :=
  c = 9 || c = 10 || c = 11 || c = 12 || c = 13 || c = 32 || c = 160 ||
  c = 5760 || (8192 ≤ c && c ≤ 8202) || c = 8232 || c = 8233 || c = 8239 ||
  c = 8287 || c = 12288 || c = 65279

/-- The method `trim()`: white space is dropped at both ends. -/
def trim (s : JsString) : JsString :=
  ((s.dropWhile isTrimUnit).reverse.dropWhile isTrimUnit).reverse

/-- The method `split("\n")`, scanning the string once: `cur` is the piece being
read.  A string without a line feed, the empty one included, is one piece. -/
def splitAux : JsString → JsString → List JsString
  | [], cur => [cur]
  | c :: rest, cur => if c = LF then cur :: splitAux rest [] else splitAux rest (cur ++ [c])

/-- The method `split("\n")`. -/
def split (s : JsString) : List JsString := splitAux s []

/-- The constant `PK_LIST` (lines 24-28), as a function of the text of `pk.txt`. -/
def PK_LIST (text : JsString) : List JsString :=
  (split (trim text)).filter (fun x => x.length > 10)

/-- The method `join("\n")` of an array of strings: the text whose lines are
the given ones. -/
def joinLines : List JsString → JsString
  | [] => []
  | [l] => l
  | l :: l2 :: rest => l ++ LF :: joinLines (l2 :: rest)

/-! ## Configuration and data -/

/-- The variables read from `process.env` (lines 7-17).  `MINT_COUNT` is the
count the loop bound `i < MINT_COUNT` amounts to, absent when the variable is
not set.  `TOKEN` is absent when the variable is not set: the constructor of
the token contract then raises (lines 99 and 120).  No other variable decides
by its absence what the script does next: a call that takes one fails, if it
does, inside a `try` block of the script or as a call whose reply the world
gives. -/
structure Env where
  CAPTCHA_KEY : String
  TURNSTILE_SITEKEY : String
  RPC : String
  API_BASE : String
  CLIENT_ID : String
  RECIPIENT : String
  RELAYER : String
  TOKEN : Option String
  MINT_COUNT : Option Nat
  deriving DecidableEq

/-- The destructuring default `MINT_COUNT = 10` (line 16). -/
def Env.mintCount (env : Env) : Nat :=
  match env.MINT_COUNT with
  | some n => n
  | none => 10

/-- The object `paymentRequirements` of a 402 body. -/
structure PaymentRequirements where
  amount : String
  network : String
  relayerContract : String
  deriving DecidableEq

/-- The fields of a JSON body that the script reads; an absent field is `none`. -/
structure Data where
  status : Option Int
  request : Option String
  message : Option String
  jwt : Option String
  token : Option String
  paymentRequirements : Option PaymentRequirements
  nftTransaction : Option String
  deriving DecidableEq

/-- A body with no field the script reads. -/
def Data.empty : Data :=
  { status := none, request := none, message := none, jwt := none, token := none,
    paymentRequirements := none, nftTransaction := none }

/-- An HTTP response. -/
structure Response where
  status : Nat
  data : Data
  deriving DecidableEq

/-- The message signed by `buildPermit` (lines 146-154); `sender` and
`recipient` are its fields `from` and `to`. -/
structure Authorization where
  token : Option String
  sender : String
  recipient : String
  value : String
  validAfter : Int
  validBefore : Int
  nonce : String
  deriving DecidableEq

/-- The signing domain of `buildPermit` (lines 156-161). -/
structure Domain where
  name : String
  version : String
  chainId : Nat
  verifyingContract : String
  deriving DecidableEq

/-- The value returned by `buildPermit` (line 176). -/
structure SignedPermit where
  authorization : Authorization
  signature : String
  deriving DecidableEq

/-- The `paymentPayload` and `paymentRequirements` of a drip request that
carries a permit (lines 239-243). -/
structure Payment where
  token : Option String
  payload : SignedPermit
  network : String
  relayerContract : String
  deriving DecidableEq

/-- The HTTP requests of the script. -/
inductive Request where
  /-- The request `GET https://sctg.xyz/in.php` (line 36). -/
  | captchaIn (key sitekey : String)
  /-- The request `GET https://sctg.xyz/res.php` (line 51). -/
  | captchaRes (key : String) (id : Option String)
  /-- The request `POST /auth/web3/challenge` (line 70). -/
  | challenge (walletAddress clientId lid : String) (turnstileToken : Option String)
  /-- The request `POST /auth/web3/verify` (line 82). -/
  | verify (walletAddress clientId lid signature : String) (turnstileToken : Option String)
  /-- The request `POST /faucet/drip` (lines 208 and 235), with or without a payment. -/
  | drip (jwt : Option String) (recipientAddress : String) (payment : Option Payment)
  deriving DecidableEq

/-- The lines the script writes with `console.log` and `process.stdout.write`,
one constructor for each text; the values printed after the text are left out. -/
inductive Line where
  /-- The rule `============` (lines 183 and 185). -/
  | banner
  /-- The text `START WALLET:` (line 184). -/
  | startWallet
  /-- The text `Requesting captcha job to SCTG...` (line 34). -/
  | requestingCaptcha
  /-- The text `SCTG error:` (line 41). -/
  | sctgError
  /-- The text `Job created, ID:` (line 46). -/
  | jobCreated
  /-- The text `Captcha solved!` (line 56). -/
  | captchaSolved
  /-- The dot written while polling (line 60). -/
  | dot
  /-- The text `Check allowance error:` (line 104). -/
  | checkAllowanceError
  /-- The text `Already approved, skipping approve` (line 115). -/
  | alreadyApproved
  /-- The text `Approving unlimited for wallet` (line 122). -/
  | approving
  /-- The text `Approve TX:` (line 130). -/
  | approveTx
  /-- The text `Approve confirmed!` (line 132). -/
  | approveConfirmed
  /-- The text `Approve failed:` (line 134). -/
  | approveFailed
  /-- The text `Logged in:` (line 200). -/
  | loggedIn
  /-- The text `Requirement:` (line 216). -/
  | requirement
  /-- The text `Can't get requirement:` (line 218). -/
  | cannotGetRequirement
  /-- The text `Building N permits...` (line 224). -/
  | building
  /-- The text `Sending permits...` (line 231). -/
  | sending
  /-- The text `Mint #i OK` (line 248). -/
  | mintOk
  /-- The text `Mint #i FAILED` (line 250). -/
  | mintFailed
  /-- The text `Running N wallets...` (line 260). -/
  | running
  /-- The text `DONE — ALL WALLETS COMPLETE!` (line 266). -/
  | done
  deriving DecidableEq

/-- What the script does that is visible from outside, in the order it does it. -/
inductive Event where
  /-- A line written by `console.log` or `process.stdout.write`. -/
  | log (line : Line)
  /-- An HTTP request made through `axios` and the reply it got, `none` when
  no response arrived. -/
  | http (req : Request) (reply : Option Response)
  /-- The read `token.allowance(owner, spender)` and its value, `none` when the
  read failed. -/
  | allowanceCall (owner spender : String) (value : Option Nat)
  /-- The transaction `token.approve(spender, value, { gasLimit })` and the hash
  it got, `none` when sending it failed. -/
  | approveCall (spender : String) (value gasLimit : Nat) (hash : Option String)
  /-- The wait `tx.wait()` on the transaction with this hash and whether the
  transaction was confirmed. -/
  | waitCall (hash : String) (confirmed : Bool)
  /-- The read `provider.getNetwork()` and the chain id it gave, if any. -/
  | getNetwork (chainId : Option Nat)
  /-- The call `wallet.signMessage(message)` and what it gave. -/
  | signMessage (message : Option String) (sig : Option String)
  /-- The call `wallet._signTypedData(domain, types, msg)` and what it gave. -/
  | signTypedData (domain : Domain) (msg : Authorization) (sig : Option String)
  /-- The main loop calls `runForWallet(pk)`. -/
  | runStart (pk : JsString)
  /-- The call `runForWallet(pk)` of the main loop has returned. -/
  | runEnd (pk : JsString)
  deriving DecidableEq

/-- A JavaScript exception. -/
inductive JsError where
  /-- The error of a rejected `axios` call; `response` is `err.response`. -/
  | axios (response : Option Response)
  /-- A `TypeError`, as raised by reading a property of `undefined`. -/
  | typeError (msg : String)
  /-- An error raised by a call into `ethers`. -/
  | ethers (msg : String)
  deriving DecidableEq

/-- The expression `err.response?.status`. -/
def JsError.responseStatus : JsError → Option Nat
  | JsError.axios (some r) => some r.status
  | _ => none

/-! ## State and outcomes -/

/-- The state threaded through the script: the replies the outside world is
going to give and the allowances held by the token contract.  Each stream is
indexed from the next call of its kind. -/
structure State where
  /-- Replies to the HTTP requests; `none` when no response arrives. -/
  http : Nat → Option Response
  /-- The address of the wallet built from a key; `none` when
  `new ethers.Wallet(pk, provider)` raises. -/
  walletOf : JsString → Option String
  /-- Values of `randomUUID()`. -/
  uuid : Nat → String
  /-- Results of `wallet.signMessage`; `none` when the call raises. -/
  sigMessage : Nat → Option String
  /-- Whether the reads of the allowance succeed. -/
  readOk : Nat → Bool
  /-- Results of sending `approve`: the transaction hash, `none` when it raises. -/
  approveTx : Nat → Option String
  /-- Whether the waited transactions are confirmed. -/
  receipt : Nat → Bool
  /-- Results of `provider.getNetwork()`: the chain id, `none` when it raises. -/
  network : Nat → Option Nat
  /-- Readings of `Date.now()`, in milliseconds. -/
  clock : Nat → Int
  /-- Values of `hexlify(randomBytes(32))`. -/
  random : Nat → String
  /-- Results of `wallet._signTypedData`; `none` when the call raises. -/
  sigTyped : Nat → Option String
  /-- The allowance `owner` grants to `spender` on the token contract at the
  address `token`, as `allowance token owner spender`. -/
  allowance : String → String → String → Nat

/-- How a piece of the script ends. -/
inductive Ending (α : Type) where
  /-- It returned `a`. -/
  | ok (a : α)
  /-- It raised `e`. -/
  | throw (e : JsError)
  /-- It is still in the polling loop, the fuel being used up. -/
  | pending
  deriving DecidableEq

/-- The outcome of running a piece of the script from a state: what it did, in
order, the state it left, and how it ended. -/
structure Res (α : Type) where
  trace : List Event
  state : State
  ending : Ending α

/-- Whether the outcome is a normal return. -/
def Res.returned {α : Type} (r : Res α) : Bool :=
  match r.ending with
  | Ending.ok _ => true
  | _ => false

/-- Whether the outcome is a raised exception. -/
def Res.raised {α : Type} (r : Res α) : Bool :=
  match r.ending with
  | Ending.throw _ => true
  | _ => false

/-- Whether the outcome is a polling loop that has not ended. -/
def Res.polling {α : Type} (r : Res α) : Bool :=
  match r.ending with
  | Ending.pending => true
  | _ => false

/-- The value returned, if the outcome is a normal return. -/
def Res.value {α : Type} (r : Res α) : Option α :=
  match r.ending with
  | Ending.ok a => some a
  | _ => none

/-- The exception raised, if any. -/
def Res.error {α : Type} (r : Res α) : Option JsError :=
  match r.ending with
  | Ending.throw e => some e
  | _ => none

/-- A piece of the script: a function from the state it starts in to its outcome. -/
def M (α : Type) : Type := State → Res α

/-- Sequencing: `await` a piece, then go on with its value.  The trace of the
whole is the trace of the first piece followed by that of the second. -/
def M.bind {α β : Type} (m : M α) (f : α → M β) : M β := fun s =>
  match m s with
  | ⟨d1, s1, Ending.ok a⟩ =>
    match f a s1 with
    | ⟨d2, s2, e⟩ => ⟨d1 ++ d2, s2, e⟩
  | ⟨d1, s1, Ending.throw e⟩ => ⟨d1, s1, Ending.throw e⟩
  | ⟨d1, s1, Ending.pending⟩ => ⟨d1, s1, Ending.pending⟩

instance : Monad M where
  pure a := fun s => ⟨[], s, Ending.ok a⟩
  bind := M.bind

/-- The statement `throw`. -/
def raise {α : Type} (e : JsError) : M α := fun s => ⟨[], s, Ending.throw e⟩

/-- The statement `try { body } catch (err) { handler }`. -/
def tryCatch {α : Type} (body : M α) (handler : JsError → M α) : M α := fun s =>
  match body s with
  | ⟨d1, s1, Ending.ok a⟩ => ⟨d1, s1, Ending.ok a⟩
  | ⟨d1, s1, Ending.throw e⟩ =>
    match handler e s1 with
    | ⟨d2, s2, e2⟩ => ⟨d1 ++ d2, s2, e2⟩
  | ⟨d1, s1, Ending.pending⟩ => ⟨d1, s1, Ending.pending⟩

/-- Put one event on the trace. -/
def emit (e : Event) : M Unit := fun s => ⟨[e], s, Ending.ok ()⟩

/-- The call `console.log` (and `process.stdout.write`). -/
def log (line : Line) : M Unit := emit (Event.log line)

/-! ## External calls -/

/-- A call `axios.get` or `axios.post`: the request is sent and the promise
settles on the next reply.  With the default `validateStatus` of `axios` the
promise resolves on a status from 200 to 299 and rejects otherwise, the error
carrying the response when there is one. -/
def axios (req : Request) : M Response := fun s =>
  let s1 := { s with http := fun i => s.http (i + 1) }
  match s.http 0 with
  | none => ⟨[Event.http req none], s1, Ending.throw (JsError.axios none)⟩
  | some r =>
    if 200 ≤ r.status ∧ r.status < 300 then ⟨[Event.http req (some r)], s1, Ending.ok r⟩
    else ⟨[Event.http req (some r)], s1, Ending.throw (JsError.axios (some r))⟩

/-- The object built by `new ethers.Wallet(pk, provider)`. -/
structure Wallet where
  privateKey : JsString
  address : String
  deriving DecidableEq

/-- The constructor `new ethers.Wallet(pk, provider)` (line 188); it raises on a
string that is not a private key. -/
def newWallet (pk : JsString) : M Wallet := fun s =>
  match s.walletOf pk with
  | some a => ⟨[], s, Ending.ok { privateKey := pk, address := a }⟩
  | none => ⟨[], s, Ending.throw (JsError.ethers "invalid private key")⟩

/-- The call `randomUUID()`. -/
def randomUUID : M String := fun s =>
  ⟨[], { s with uuid := fun i => s.uuid (i + 1) }, Ending.ok (s.uuid 0)⟩

/-- The call `wallet.signMessage(message)`. -/
def signMessage (message : Option String) : M String := fun s =>
  let s1 := { s with sigMessage := fun i => s.sigMessage (i + 1) }
  match s.sigMessage 0 with
  | some sig => ⟨[Event.signMessage message (some sig)], s1, Ending.ok sig⟩
  | none =>
    ⟨[Event.signMessage message none], s1, Ending.throw (JsError.ethers "signMessage failed")⟩

/-- The object built by `new ethers.Contract(TOKEN, abi, wallet)`. -/
structure Contract where
  address : String
  deriving DecidableEq

/-- The constructor `new ethers.Contract(TOKEN, abi, wallet)` (lines 99 and
120); it raises when the address is `undefined`. -/
def newContract (address : Option String) : M Contract := fun s =>
  match address with
  | some a => ⟨[], s, Ending.ok { address := a }⟩
  | none => ⟨[], s, Ending.throw (JsError.ethers "invalid contract address or ENS name")⟩

/-- The read `token.allowance(owner, spender)` of the token contract. -/
def tokenAllowance (token : Contract) (owner spender : String) : M Nat := fun s =>
  let s1 := { s with readOk := fun i => s.readOk (i + 1) }
  if s.readOk 0 then
    ⟨[Event.allowanceCall owner spender (some (s.allowance token.address owner spender))], s1,
      Ending.ok (s.allowance token.address owner spender)⟩
  else
    ⟨[Event.allowanceCall owner spender none], s1,
      Ending.throw (JsError.ethers "allowance call failed")⟩

/-- A transaction `approve` that has been sent. -/
structure ApproveTx where
  hash : String
  token : String
  owner : String
  spender : String
  value : Nat
  deriving DecidableEq

/-- The call `token.approve(spender, value, { gasLimit })` signed by `owner`. -/
def tokenApprove (token : Contract) (owner spender : String) (value gasLimit : Nat) :
    M ApproveTx := fun s =>
  let s1 := { s with approveTx := fun i => s.approveTx (i + 1) }
  match s.approveTx 0 with
  | some h =>
    ⟨[Event.approveCall spender value gasLimit (some h)], s1,
      Ending.ok { hash := h, token := token.address, owner := owner, spender := spender,
                  value := value }⟩
  | none =>
    ⟨[Event.approveCall spender value gasLimit none], s1,
      Ending.throw (JsError.ethers "approve failed")⟩

/-- The allowances after `approve(spender, value)` by `owner` has been mined:
the token contract at `token` stores `value` for that pair. -/
def setAllowance (a : String → String → String → Nat) (token owner spender : String)
    (value : Nat) : String → String → String → Nat :=
  fun t o sp => if t = token ∧ o = owner ∧ sp = spender then value else a t o sp

/-- The call `tx.wait()`: it returns once the transaction is confirmed, which
is when the contract holds the new allowance, and raises when the transaction
fails. -/
def txWait (tx : ApproveTx) : M Unit := fun s =>
  let s1 := { s with receipt := fun i => s.receipt (i + 1) }
  if s.receipt 0 then
    ⟨[Event.waitCall tx.hash true],
      { s1 with allowance := setAllowance s.allowance tx.token tx.owner tx.spender tx.value },
      Ending.ok ()⟩
  else
    ⟨[Event.waitCall tx.hash false], s1, Ending.throw (JsError.ethers "transaction failed")⟩

/-- The call `provider.getNetwork()`, giving the chain id. -/
def getNetwork : M Nat := fun s =>
  let s1 := { s with network := fun i => s.network (i + 1) }
  match s.network 0 with
  | some c => ⟨[Event.getNetwork (some c)], s1, Ending.ok c⟩
  | none =>
    ⟨[Event.getNetwork none], s1, Ending.throw (JsError.ethers "could not detect network")⟩

/-- The call `Date.now()`. -/
def dateNow : M Int := fun s =>
  ⟨[], { s with clock := fun i => s.clock (i + 1) }, Ending.ok (s.clock 0)⟩

/-- The expression `ethers.utils.hexlify(ethers.utils.randomBytes(32))`. -/
def randomNonce : M String := fun s =>
  ⟨[], { s with random := fun i => s.random (i + 1) }, Ending.ok (s.random 0)⟩

/-- The call `wallet._signTypedData(domain, types, msg)`; `types` is the fixed
table of lines 163-173. -/
def signTypedData (domain : Domain) (msg : Authorization) : M String := fun s =>
  let s1 := { s with sigTyped := fun i => s.sigTyped (i + 1) }
  match s.sigTyped 0 with
  | some sig => ⟨[Event.signTypedData domain msg (some sig)], s1, Ending.ok sig⟩
  | none =>
    ⟨[Event.signTypedData domain msg none], s1,
      Ending.throw (JsError.ethers "_signTypedData failed")⟩

/-- The constant `ethers.constants.MaxUint256`. -/
def MaxUint256 : Nat := 2 ^ 256 - 1

/-- Whether a value that is a string, `null` or `undefined` is falsy. -/
def falsy : Option String → Bool
  | none => true
  | some x => x = ""

/-- The expression `a || b` on such values. -/
def jsOr (a b : Option String) : Option String :=
  if falsy a then b else a

/-! ## The script -/

/-- The polling loop `while (true)` of `solveTurnstile` (lines 48-61), on a fuel
counter. -/
def pollLoop (env : Env) (jobId : Option String) : Nat → M (Option String)
  | 0 => fun s => ⟨[], s, Ending.pending⟩
  | fuel + 1 => do
    let res ← axios (Request.captchaRes env.CAPTCHA_KEY jobId)
    if res.data.status = some 1 then do
      log Line.captchaSolved
      pure res.data.request
    else do
      log Line.dot
      pollLoop env jobId fuel

/-- The function `solveTurnstile` (lines 33-62).  Its value is `none` for
`null` and for an absent field `request`. -/
def solveTurnstile (env : Env) (fuel : Nat) : M (Option String) := do
  log Line.requestingCaptcha
  let create ← axios (Request.captchaIn env.CAPTCHA_KEY env.TURNSTILE_SITEKEY)
  if create.data.status ≠ some 1 then do
    log Line.sctgError
    pure none
  else do
    let jobId := create.data.request
    log Line.jobCreated
    pollLoop env jobId fuel

/-- The function `getChallenge` (lines 67-79). -/
def getChallenge (env : Env) (WALLET : String) (ts : Option String) : M (String × Data) := do
  let lid ← randomUUID
  let res ← axios (Request.challenge WALLET env.CLIENT_ID lid ts)
  pure (lid, res.data)

/-- The function `verifyChallenge` (lines 81-92). -/
def verifyChallenge (env : Env) (WALLET lid sig : String) (ts : Option String) : M Data := do
  let res ← axios (Request.verify WALLET env.CLIENT_ID lid sig ts)
  pure res.data

/-- The function `checkAllowance` (lines 97-107). -/
def checkAllowance (env : Env) (WALLET : String) : M Nat := do
  let token ← newContract env.TOKEN
  tryCatch
    (do
      let currentAllowance ← tokenAllowance token WALLET env.RELAYER
      pure currentAllowance)
    (fun _ => do
      log Line.checkAllowanceError
      pure 0)

/-- The function `approveUnlimited` (lines 112-136). -/
def approveUnlimited (env : Env) (WALLET : String) : M Unit := do
  let currentAllowance ← checkAllowance env WALLET
  if currentAllowance > 0 then
    log Line.alreadyApproved
  else do
    let token ← newContract env.TOKEN
    log Line.approving
    tryCatch
      (do
        let Max := MaxUint256
        let tx ← tokenApprove token WALLET env.RELAYER Max 60000
        log Line.approveTx
        txWait tx
        log Line.approveConfirmed)
      (fun _ => log Line.approveFailed)

/-- The function `buildPermit` (lines 141-177). -/
def buildPermit (env : Env) (wallet : Wallet) (amount relayer : String) : M SignedPermit := do
  let net ← getNetwork
  let t ← dateNow
  let now := Int.fdiv t 1000
  let nonce ← randomNonce
  let msg : Authorization :=
    { token := env.TOKEN, sender := wallet.address, recipient := env.RECIPIENT, value := amount,
      validAfter := now - 20, validBefore := now + 1800, nonce := nonce }
  let domain : Domain :=
    { name := "B402", version := "1", chainId := net, verifyingContract := relayer }
  let sig ← signTypedData domain msg
  pure { authorization := msg, signature := sig }

/-- How a section of `runForWallet` ends: the function goes on with a value, or
the section executes `return`. -/
inductive Flow (α : Type) where
  | next (a : α)
  | ret
  deriving DecidableEq

/-- The section LOGIN of `runForWallet` (lines 183-200), with the banner before
it: it gives the wallet and the credential `jwt`, or returns when the captcha
token is falsy. -/
def login (env : Env) (fuel : Nat) (pk : JsString) : M (Flow (Wallet × Option String)) := do
  log Line.banner
  log Line.startWallet
  log Line.banner
  let wallet ← newWallet pk
  let WALLET := wallet.address
  let ts ← solveTurnstile env fuel
  if falsy ts then pure Flow.ret else do
  let (lid, challenge) ← getChallenge env WALLET ts
  let signed ← signMessage challenge.message
  let verify ← verifyChallenge env WALLET lid signed ts
  let jwt := jsOr verify.jwt verify.token
  log Line.loggedIn
  pure (Flow.next (wallet, jwt))

/-- The section FETCH REQUIREMENTS of `runForWallet` (lines 206-221): it gives
the value of the variable `pay`, `none` when it is left `undefined`, or returns. -/
def fetchRequirements (env : Env) (jwt : Option String) :
    M (Flow (Option PaymentRequirements)) :=
  tryCatch
    (do
      let _ ← axios (Request.drip jwt env.RECIPIENT none)
      pure (Flow.next none))
    (fun err =>
      if err.responseStatus = some 402 then
        match err with
        | JsError.axios (some r) =>
          match r.data.paymentRequirements with
          | some pay => do
            log Line.requirement
            pure (Flow.next (some pay))
          | none => raise (JsError.typeError "Cannot read properties of undefined (reading amount)")
        | _ => raise (JsError.typeError "Cannot read properties of undefined (reading data)")
      else do
        log Line.cannotGetRequirement
        pure Flow.ret)

/-- The loop `for (let i = 0; i < MINT_COUNT; i++)` (lines 226-228), by the
number of rounds left; `pay` is `none` when the variable is `undefined`, and
reading `pay.amount` then raises. -/
def buildLoop (env : Env) (wallet : Wallet) (pay : Option PaymentRequirements) :
    Nat → List SignedPermit → M (List SignedPermit)
  | 0, permits => pure permits
  | k + 1, permits =>
    match pay with
    | none => raise (JsError.typeError "Cannot read properties of undefined (reading amount)")
    | some p => do
      let permit ← buildPermit env wallet p.amount p.relayerContract
      buildLoop env wallet pay k (permits ++ [permit])

/-- The section BUILD PERMITS of `runForWallet` (lines 224-228). -/
def buildPermits (env : Env) (wallet : Wallet) (pay : Option PaymentRequirements) :
    M (List SignedPermit) := do
  log Line.building
  buildLoop env wallet pay env.mintCount []

/-- A promise awaited inside `try`: its settlement, as a value. -/
def settle {α : Type} (m : M α) : M (Except JsError α) :=
  tryCatch (do let a ← m; pure (Except.ok a)) (fun e => pure (Except.error e))

/-- The request of the callback of `permits.map` (lines 235-246) for permit `p`. -/
def postPermit (env : Env) (jwt : Option String) (pay : Option PaymentRequirements)
    (p : SignedPermit) : M Response :=
  match pay with
  | none => raise (JsError.typeError "Cannot read properties of undefined (reading network)")
  | some q =>
    axios (Request.drip jwt env.RECIPIENT
      (some { token := env.TOKEN, payload := p, network := q.network,
              relayerContract := q.relayerContract }))

/-- The call `permits.map(async (p, i) => ...)` (line 233): the callbacks start
in index order, each running up to its `await`, so the requests leave in the
order of the permits. -/
def sendPermits (env : Env) (jwt : Option String) (pay : Option PaymentRequirements) :
    List SignedPermit → M (List (Except JsError Response))
  | [] => pure []
  | p :: rest => do
    let r ← settle (postPermit env jwt pay p)
    let rs ← sendPermits env jwt pay rest
    pure (r :: rs)

/-- The rest of one callback (lines 248-251): it logs the settlement of its
request, the success in the `try` block and the failure in the `catch` block. -/
def logMint (r : Except JsError Response) : M Unit :=
  match r with
  | Except.ok _ => log Line.mintOk
  | Except.error _ => log Line.mintFailed

/-- The rest of the callbacks: each logs the settlement of its own request and
raises nothing.  The lines are written here in index order; the script writes
them in the order the replies arrive. -/
def logMints : List (Except JsError Response) → M Unit
  | [] => pure ()
  | r :: rest => do
    logMint r
    logMints rest

/-- The section FIRE PERMITS of `runForWallet` (lines 231-253). -/
def firePermits (env : Env) (jwt : Option String) (pay : Option PaymentRequirements)
    (permits : List SignedPermit) : M Unit := do
  log Line.sending
  let results ← sendPermits env jwt pay permits
  logMints results

/-- The function `runForWallet` (lines 182-254), section by section. -/
def runForWallet (env : Env) (fuel : Nat) (pk : JsString) : M Unit := do
  match ← login env fuel pk with
  | Flow.ret => pure ()
  | Flow.next (wallet, jwt) =>
    approveUnlimited env wallet.address
    match ← fetchRequirements env jwt with
    | Flow.ret => pure ()
    | Flow.next pay =>
      let permits ← buildPermits env wallet pay
      firePermits env jwt pay permits

/-- The loop `for (const pk of PK_LIST)` of the main function (lines 262-264).
The events `runStart` and `runEnd` mark the call of `runForWallet` and its
return. -/
def mainLoop (env : Env) (fuel : Nat) : List JsString → M Unit
  | [] => pure ()
  | pk :: rest => do
    emit (Event.runStart pk)
    runForWallet env fuel pk
    emit (Event.runEnd pk)
    mainLoop env fuel rest

/-- The main function (lines 259-267), on the text of `pk.txt`. -/
def main (env : Env) (fuel : Nat) (text : JsString) : M Unit := do
  log Line.running
  mainLoop env fuel (PK_LIST text)
  log Line.done

/-! ## Reading a trace -/

/-- The events written by the main loop around each call of `runForWallet`. -/
def Event.isRunMark : Event → Bool
  | Event.runStart _ => true
  | Event.runEnd _ => true
  | _ => false

/-- The marks of the main loop in a trace, in order. -/
def runMarks (d : List Event) : List Event := d.filter Event.isRunMark

/-- The keys for which the main loop has started a wallet run, in order. -/
def startedKeys (d : List Event) : List JsString :=
  d.filterMap (fun e => match e with
    | Event.runStart pk => some pk
    | _ => none)

/-- The marks of wallet runs that each started and returned before the next
one started, one run for each key of the list. -/
def completedRuns : List JsString → List Event
  | [] => []
  | k :: ks => Event.runStart k :: Event.runEnd k :: completedRuns ks

/-- The permits built in a trace: the message and the signature of each call
of `_signTypedData` that gave a signature. -/
def signedPermits (d : List Event) : List SignedPermit :=
  d.filterMap (fun e => match e with
    | Event.signTypedData _ msg (some sig) => some { authorization := msg, signature := sig }
    | _ => none)

/-- The payments of the drip requests of a trace that carry one, in order. -/
def payments (d : List Event) : List Payment :=
  d.filterMap (fun e => match e with
    | Event.http (Request.drip _ _ (some pay)) _ => some pay
    | _ => none)

/-- The polls of the solver in a trace: the replies to the requests `res.php`. -/
def polls (d : List Event) : List (Option Response) :=
  d.filterMap (fun e => match e with
    | Event.http (Request.captchaRes _ _) reply => some reply
    | _ => none)

/-- The events of the section LOGIN before its last line: the lines of the
banner and of the captcha, the requests to the solver and to the authentication
endpoints, the signature of the challenge. -/
def Event.inAuth : Event → Bool
  | Event.log Line.banner => true
  | Event.log Line.startWallet => true
  | Event.log Line.requestingCaptcha => true
  | Event.log Line.sctgError => true
  | Event.log Line.jobCreated => true
  | Event.log Line.captchaSolved => true
  | Event.log Line.dot => true
  | Event.http (Request.captchaIn _ _) _ => true
  | Event.http (Request.captchaRes _ _) _ => true
  | Event.http (Request.challenge _ _ _ _) _ => true
  | Event.http (Request.verify _ _ _ _ _) _ => true
  | Event.signMessage _ _ => true
  | _ => false

/-- The events of the section LOGIN: those above and the line `Logged in:`. -/
def Event.inLogin : Event → Bool
  | Event.log Line.banner => true
  | Event.log Line.startWallet => true
  | Event.log Line.requestingCaptcha => true
  | Event.log Line.sctgError => true
  | Event.log Line.jobCreated => true
  | Event.log Line.captchaSolved => true
  | Event.log Line.dot => true
  | Event.log Line.loggedIn => true
  | Event.http (Request.captchaIn _ _) _ => true
  | Event.http (Request.captchaRes _ _) _ => true
  | Event.http (Request.challenge _ _ _ _) _ => true
  | Event.http (Request.verify _ _ _ _ _) _ => true
  | Event.signMessage _ _ => true
  | _ => false

/-- The events of `approveUnlimited`. -/
def Event.inApprove : Event → Bool
  | Event.log Line.checkAllowanceError => true
  | Event.log Line.alreadyApproved => true
  | Event.log Line.approving => true
  | Event.log Line.approveTx => true
  | Event.log Line.approveConfirmed => true
  | Event.log Line.approveFailed => true
  | Event.allowanceCall _ _ _ => true
  | Event.approveCall _ _ _ _ => true
  | Event.waitCall _ _ => true
  | _ => false

/-- The events of the section FETCH REQUIREMENTS. -/
def Event.inFetch : Event → Bool
  | Event.log Line.requirement => true
  | Event.log Line.cannotGetRequirement => true
  | Event.http (Request.drip _ _ none) _ => true
  | _ => false

/-- The events of the section BUILD PERMITS. -/
def Event.inBuild : Event → Bool
  | Event.log Line.building => true
  | Event.getNetwork _ => true
  | Event.signTypedData _ _ _ => true
  | _ => false

/-- The events of the section FIRE PERMITS after its first line: the requests
that carry a payment and the lines of their outcomes. -/
def Event.inSend : Event → Bool
  | Event.log Line.mintOk => true
  | Event.log Line.mintFailed => true
  | Event.http (Request.drip _ _ (some _)) _ => true
  | _ => false

/-- The events of the section FIRE PERMITS: those above and the line `Sending
permits...`. -/
def Event.inFire : Event → Bool
  | Event.log Line.sending => true
  | Event.log Line.mintOk => true
  | Event.log Line.mintFailed => true
  | Event.http (Request.drip _ _ (some _)) _ => true
  | _ => false

/-- Every event in the trace of `m`, from whatever state, satisfies `P`. -/
def Emits {α : Type} (P : Event → Bool) (m : M α) : Prop :=
  ∀ s : State, ∀ e ∈ (m s).trace, P e = true

/-! ## Sample data

A configuration and a world used to run the script on concrete inputs. -/

/-- A configuration with `MINT_COUNT=3`. -/
def sampleEnv : Env :=
  { CAPTCHA_KEY := "captcha-key", TURNSTILE_SITEKEY := "sitekey", RPC := "rpc",
    API_BASE := "api", CLIENT_ID := "client", RECIPIENT := "0xRecipient",
    RELAYER := "0xRelayer", TOKEN := some "0xToken", MINT_COUNT := some 3 }

/-- The same configuration with `MINT_COUNT` not set. -/
def defaultEnv : Env := { sampleEnv with MINT_COUNT := none }

/-- The same configuration with `TOKEN` not set. -/
def noTokenEnv : Env := { sampleEnv with TOKEN := none }

/-- A successful response with the given body. -/
def ok200 (d : Data) : Option Response := some { status := 200, data := d }

/-- The body of the solver: `status` and `request`. -/
def solverBody (status : Int) (request : String) : Data :=
  { Data.empty with status := some status, request := some request }

/-- The payment requirement of the sample faucet. -/
def samplePay : PaymentRequirements :=
  { amount := "1000000", network := "bsc", relayerContract := "0xRelayer" }

/-- A world in which every external call but the HTTP ones succeeds, the
allowance is zero, and the HTTP replies are the given ones. -/
def worldWith (http : Nat → Option Response) : State :=
  { http := http, walletOf := fun _ => some "0xWallet", uuid := fun _ => "lid",
    sigMessage := fun _ => some "sig", readOk := fun _ => true,
    approveTx := fun _ => some "0xhash", receipt := fun _ => true,
    network := fun _ => some 56, clock := fun _ => 1700000000123,
    random := fun _ => "0xnonce", sigTyped := fun _ => some "0xsig",
    allowance := fun _ _ _ => 0 }

/-- The replies of one wallet run that goes well, from the reply `i` on: the
job is accepted, the first poll solves it, the challenge and the verification
succeed, the first drip answers 402 with `samplePay`, and every later request
succeeds. -/
def happyRun (i : Nat) : Option Response :=
  match i with
  | 0 => ok200 (solverBody 1 "job")
  | 1 => ok200 (solverBody 1 "captcha-token")
  | 2 => ok200 { Data.empty with message := some "sign me" }
  | 3 => ok200 { Data.empty with jwt := some "jwt" }
  | 4 => some { status := 402, data := { Data.empty with paymentRequirements := some samplePay } }
  | _ => ok200 { Data.empty with nftTransaction := some "0xnft" }

/-- A first private key: `0x` and 64 times the digit `a`, 66 code units. -/
def key1 : JsString := [48, 120] ++ List.replicate 64 97

/-- A second private key: `0x` and 64 times the digit `b`, 66 code units. -/
def key2 : JsString := [48, 120] ++ List.replicate 64 98

/-- The text of a key file with the two keys, one on each line. -/
def sampleText : JsString := key1 ++ [LF] ++ key2 ++ [LF]

/-- A text of 11 code units: a space and the 10 code units `0xaaaaaaaa`. -/
def spacedText : JsString := [32, 48, 120, 97, 97, 97, 97, 97, 97, 97, 97]

/-- The replies of a solver that accepts the job and never reports it solved. -/
def neverSolved (i : Nat) : Option Response :=
  match i with
  | 0 => ok200 (solverBody 1 "job")
  | _ => ok200 (solverBody 0 "CAPCHA_NOT_READY")

/-- The replies when the captcha is solved and the challenge request is
rejected with status 403. -/
def challengeRejected (i : Nat) : Option Response :=
  match i with
  | 0 => ok200 (solverBody 1 "job")
  | 1 => ok200 (solverBody 1 "captcha-token")
  | 2 => some { status := 403, data := Data.empty }
  | n + 3 => happyRun n

/-- The replies when the login goes well and the verify request is rejected
with status 401. -/
def verifyRejected (i : Nat) : Option Response :=
  match i with
  | 0 => ok200 (solverBody 1 "job")
  | 1 => ok200 (solverBody 1 "captcha-token")
  | 2 => ok200 { Data.empty with message := some "sign me" }
  | 3 => some { status := 401, data := Data.empty }
  | n + 4 => happyRun n

/-- The replies when the login goes well and the first drip request is
answered with status 200 instead of 402. -/
def freeDrip (i : Nat) : Option Response :=
  match i with
  | 0 => ok200 (solverBody 1 "job")
  | 1 => ok200 (solverBody 1 "captcha-token")
  | 2 => ok200 { Data.empty with message := some "sign me" }
  | 3 => ok200 { Data.empty with jwt := some "jwt" }
  | 4 => ok200 { Data.empty with nftTransaction := some "0xnft" }
  | n + 5 => happyRun n

/-- The replies of two wallet runs that go well, one after the other: each run
takes five replies up to the discovery and three for its submissions. -/
def twoHappyRuns (i : Nat) : Option Response :=
  if i < 8 then happyRun i else happyRun (i - 8)

/-- The replies of a solver that accepts the job, answers two polls with a
status other than 1 and reports the job solved on the third. -/
def solvedOnThirdPoll (i : Nat) : Option Response :=
  match i with
  | 0 => ok200 (solverBody 1 "job")
  | 1 => ok200 (solverBody 0 "CAPCHA_NOT_READY")
  | 2 => ok200 (solverBody 0 "CAPCHA_NOT_READY")
  | 3 => ok200 (solverBody 1 "captcha-token")
  | _ => none

/-- The sample world with an RPC node that fails every read and every send. -/
def brokenNode : State :=
  { worldWith happyRun with readOk := fun _ => false, approveTx := fun _ => none }

/-- The sample world with a positive allowance for every owner and spender. -/
def approvedWorld : State := { worldWith happyRun with allowance := fun _ _ _ => 5 }

/-! ## The key file -/

theorem splitAux_ne_nil (s cur : JsString) : splitAux s cur ≠ [] := by
  induction s generalizing cur with
  | nil => simp [splitAux]
  | cons c rest ih =>
    unfold splitAux
    split
    · simp
    · exact ih _

theorem joinLines_cons (l : JsString) (ls : List JsString) (h : ls ≠ []) :
    joinLines (l :: ls) = l ++ LF :: joinLines ls := by
  cases ls with
  | nil => exact absurd rfl h
  | cons l2 rest => rfl

theorem joinLines_splitAux (s cur : JsString) : joinLines (splitAux s cur) = cur ++ s := by
  induction s generalizing cur with
  | nil => simp [splitAux, joinLines]
  | cons c rest ih =>
    unfold splitAux
    split
    · rename_i hc
      rw [joinLines_cons _ _ (splitAux_ne_nil _ _), ih, hc]
      simp
    · rw [ih]
      simp

theorem splitAux_no_LF (s cur : JsString) (hcur : LF ∉ cur) :
    ∀ l ∈ splitAux s cur, LF ∉ l := by
  induction s generalizing cur with
  | nil =>
    intro l hl
    simp [splitAux] at hl
    rw [hl]
    exact hcur
  | cons c rest ih =>
    intro l hl
    unfold splitAux at hl
    split at hl
    · rcases List.mem_cons.mp hl with h | h
      · rw [h]
        exact hcur
      · exact ih [] (by simp) l h
    · rename_i hc
      refine ih (cur ++ [c]) ?_ l hl
      simp only [List.mem_append, List.mem_singleton, not_or]
      exact ⟨hcur, fun h => hc h.symm⟩

/-- What `trim` does to a text: the text is the trimmed text between a run of
white space before it and one after it. -/
theorem trim_spec (text : JsString) :
    (∃ pre post : JsString, text = pre ++ trim text ++ post ∧
      (∀ c ∈ pre, isTrimUnit c = true) ∧ (∀ c ∈ post, isTrimUnit c = true)) ∧
    (∀ c, (trim text).head? = some c → isTrimUnit c = false) ∧
    (∀ c, (trim text).getLast? = some c → isTrimUnit c = false) := by
  have hb : (text.dropWhile isTrimUnit).reverse =
      (text.dropWhile isTrimUnit).reverse.takeWhile isTrimUnit ++
        (text.dropWhile isTrimUnit).reverse.dropWhile isTrimUnit :=
    (List.takeWhile_append_dropWhile _ _).symm
  have hlast : ∀ c, (trim text).getLast? = some c → isTrimUnit c = false := by
    intro c hc
    unfold trim at hc
    rw [List.getLast?_reverse] at hc
    have := List.head?_dropWhile_not isTrimUnit (text.dropWhile isTrimUnit).reverse
    rw [hc] at this
    simpa using this
  refine ⟨⟨text.takeWhile isTrimUnit,
      ((text.dropWhile isTrimUnit).reverse.takeWhile isTrimUnit).reverse, ?_, ?_, ?_⟩, ?_, hlast⟩
  · have h1 : text.dropWhile isTrimUnit = trim text ++
        ((text.dropWhile isTrimUnit).reverse.takeWhile isTrimUnit).reverse := by
      have := congrArg List.reverse hb
      rw [List.reverse_reverse, List.reverse_append] at this
      exact this
    rw [List.append_assoc, ← h1, List.takeWhile_append_dropWhile]
  · intro c hc
    exact List.mem_takeWhile_imp hc
  · intro c hc
    exact List.mem_takeWhile_imp (List.mem_reverse.mp hc)
  · intro c hc
    unfold trim at hc
    rw [List.head?_reverse] at hc
    have hne : (text.dropWhile isTrimUnit).reverse.dropWhile isTrimUnit ≠ [] := by
      intro h
      rw [h] at hc
      simp at hc
    have h2 : (text.dropWhile isTrimUnit).reverse.getLast? = some c := by
      rw [hb, List.getLast?_append_of_ne_nil _ hne]
      exact hc
    rw [List.getLast?_reverse] at h2
    have := List.head?_dropWhile_not isTrimUnit text
    rw [h2] at this
    simpa using this

theorem dropWhile_append_of_all (p : Nat → Bool) (l1 l2 : List Nat) (h : ∀ c ∈ l1, p c = true) :
    (l1 ++ l2).dropWhile p = l2.dropWhile p := by
  induction l1 with
  | nil => rfl
  | cons c rest ih =>
    rw [List.cons_append, List.dropWhile_cons_of_pos (h c (List.mem_cons_self _ _))]
    exact ih (fun x hx => h x (List.mem_cons_of_mem _ hx))

theorem dropWhile_of_head_not (p : Nat → Bool) (l : List Nat)
    (h : ∀ c, l.head? = some c → p c = false) : l.dropWhile p = l := by
  cases l with
  | nil => rfl
  | cons c rest =>
    have hc : p c = false := h c rfl
    exact List.dropWhile_cons_of_neg (by simp [hc])

/-- The trimmed text is the only part of a text that has white space alone
before it and after it and none at its ends. -/
theorem trim_unique (text pre t post : JsString) (h : text = pre ++ t ++ post)
    (hpre : ∀ c ∈ pre, isTrimUnit c = true) (hpost : ∀ c ∈ post, isTrimUnit c = true)
    (hhead : ∀ c, t.head? = some c → isTrimUnit c = false)
    (hlast : ∀ c, t.getLast? = some c → isTrimUnit c = false) :
    trim text = t := by
  subst h
  unfold trim
  rw [List.append_assoc, dropWhile_append_of_all _ _ _ hpre]
  cases t with
  | nil =>
    rw [List.nil_append]
    have : post.dropWhile isTrimUnit = [] := by
      have := dropWhile_append_of_all isTrimUnit post [] hpost
      simpa using this
    rw [this]
    rfl
  | cons c rest =>
    have h1 : ((c :: rest) ++ post).dropWhile isTrimUnit = (c :: rest) ++ post :=
      dropWhile_of_head_not _ _ (fun x hx => hhead x (by simpa using hx))
    have h2 : (c :: rest).reverse.dropWhile isTrimUnit = (c :: rest).reverse :=
      dropWhile_of_head_not _ _ (fun x hx => hlast x (by
        rw [List.head?_reverse] at hx
        exact hx))
    rw [h1, List.reverse_append, dropWhile_append_of_all _ _ _
      (fun x hx => hpost x (List.mem_reverse.mp hx)), h2]
    exact List.reverse_reverse _

/-- Claim C9.  `PK_LIST` holds the lines of the trimmed text that are longer than
10 code units, and nothing else.  The trimmed text is the text without the
white space at its two ends: the text is a run of white space, the trimmed
text, and a run of white space; the trimmed text neither starts nor ends with
white space; and it is the only part of the text of which this holds.  The
pieces given by `split` are the lines of the trimmed text: joined by line feeds
they give it back, and none contains a line feed.  `PK_LIST` is a sublist of
them, so the order is kept and no line is altered; a line longer than 10 occurs
in `PK_LIST` as often as among the lines, and a line of length 10 or less does
not occur in it. -/
theorem C9_pk_list_is_the_long_lines (text : JsString) :
    (∃ pre post : JsString, text = pre ++ trim text ++ post ∧
      (∀ c ∈ pre, isTrimUnit c = true) ∧ (∀ c ∈ post, isTrimUnit c = true)) ∧
    (∀ c, (trim text).head? = some c → isTrimUnit c = false) ∧
    (∀ c, (trim text).getLast? = some c → isTrimUnit c = false) ∧
    (∀ pre t post : JsString, text = pre ++ t ++ post →
      (∀ c ∈ pre, isTrimUnit c = true) → (∀ c ∈ post, isTrimUnit c = true) →
      (∀ c, t.head? = some c → isTrimUnit c = false) →
      (∀ c, t.getLast? = some c → isTrimUnit c = false) → trim text = t) ∧
    joinLines (split (trim text)) = trim text ∧
    (∀ l ∈ split (trim text), LF ∉ l) ∧
    (PK_LIST text).Sublist (split (trim text)) ∧
    (∀ k : JsString, (PK_LIST text).count k =
      if 10 < k.length then (split (trim text)).count k else 0) := by
  refine ⟨(trim_spec text).1, (trim_spec text).2.1, (trim_spec text).2.2,
    fun pre t post h h1 h2 h3 h4 => trim_unique text pre t post h h1 h2 h3 h4, ?_, ?_, ?_, ?_⟩
  · simpa [split] using joinLines_splitAux (trim text) []
  · exact splitAux_no_LF (trim text) [] (by simp)
  · exact List.filter_sublist _
  · intro k
    unfold PK_LIST
    split
    · rename_i h
      exact List.count_filter (by simpa using h)
    · rename_i h
      refine List.count_eq_zero.mpr ?_
      intro hk
      have := (List.mem_filter.mp hk).2
      exact h (by simpa using this)

/-- Claim C9 on sample texts.  The sample key file, whose last line ends with a
line feed, gives its two keys; and a line of 11 code units that starts with a
space gives no key, its trimmed text having 10 code units. -/
theorem C9_pk_list_is_the_long_lines_witness :
    trim sampleText = key1 ++ [LF] ++ key2 ∧
    PK_LIST sampleText = [key1, key2] ∧
    spacedText.length = 11 ∧
    trim spacedText = [48, 120, 97, 97, 97, 97, 97, 97, 97, 97] ∧
    PK_LIST spacedText = [] ∧
    joinLines (split (trim sampleText)) = trim sampleText ∧
    (PK_LIST sampleText).Sublist (split (trim sampleText)) :=
  ⟨by decide!, by decide!, by decide!, by decide!, by decide!,
   (C9_pk_list_is_the_long_lines sampleText).2.2.2.2.1,
   (C9_pk_list_is_the_long_lines sampleText).2.2.2.2.2.2.1⟩

/-! ## Sequencing -/

theorem bind_apply {α β : Type} (m : M α) (f : α → M β) (s : State) :
    (m >>= f) s = M.bind m f s := rfl

theorem pure_apply {α : Type} (a : α) (s : State) :
    (pure a : M α) s = ⟨[], s, Ending.ok a⟩ := rfl

theorem bind_ok {α β : Type} {m : M α} {f : α → M β} {s : State} {a : α}
    (h : (m s).ending = Ending.ok a) :
    (m >>= f) s =
      ⟨(m s).trace ++ (f a (m s).state).trace, (f a (m s).state).state,
        (f a (m s).state).ending⟩ := by
  rw [bind_apply]
  unfold M.bind
  rcases hm : m s with ⟨d1, s1, e1⟩
  rw [hm] at h
  simp only at h
  subst h
  rfl

theorem bind_throw {α β : Type} {m : M α} {f : α → M β} {s : State} {e : JsError}
    (h : (m s).ending = Ending.throw e) :
    (m >>= f) s = ⟨(m s).trace, (m s).state, Ending.throw e⟩ := by
  rw [bind_apply]
  unfold M.bind
  rcases hm : m s with ⟨d1, s1, e1⟩
  rw [hm] at h
  simp only at h
  subst h
  rfl

theorem bind_pending {α β : Type} {m : M α} {f : α → M β} {s : State}
    (h : (m s).ending = Ending.pending) :
    (m >>= f) s = ⟨(m s).trace, (m s).state, Ending.pending⟩ := by
  rw [bind_apply]
  unfold M.bind
  rcases hm : m s with ⟨d1, s1, e1⟩
  rw [hm] at h
  simp only at h
  subst h
  rfl

theorem tryCatch_ok {α : Type} {m : M α} {h : JsError → M α} {s : State} {a : α}
    (hm : (m s).ending = Ending.ok a) :
    tryCatch m h s = ⟨(m s).trace, (m s).state, Ending.ok a⟩ := by
  unfold tryCatch
  rcases hr : m s with ⟨d1, s1, e1⟩
  rw [hr] at hm
  simp only at hm
  subst hm
  rfl

theorem tryCatch_throw {α : Type} {m : M α} {h : JsError → M α} {s : State} {e : JsError}
    (hm : (m s).ending = Ending.throw e) :
    tryCatch m h s =
      ⟨(m s).trace ++ (h e (m s).state).trace, (h e (m s).state).state,
        (h e (m s).state).ending⟩ := by
  unfold tryCatch
  rcases hr : m s with ⟨d1, s1, e1⟩
  rw [hr] at hm
  simp only at hm
  subst hm
  rfl

theorem tryCatch_pending {α : Type} {m : M α} {h : JsError → M α} {s : State}
    (hm : (m s).ending = Ending.pending) :
    tryCatch m h s = ⟨(m s).trace, (m s).state, Ending.pending⟩ := by
  unfold tryCatch
  rcases hr : m s with ⟨d1, s1, e1⟩
  rw [hr] at hm
  simp only at hm
  subst hm
  rfl

theorem emits_pure {α : Type} (P : Event → Bool) (a : α) : Emits P (pure a : M α) := by
  intro s e he
  simp [pure_apply] at he

theorem emits_bind {α β : Type} {P : Event → Bool} {m : M α} {f : α → M β}
    (hm : Emits P m) (hf : ∀ a, Emits P (f a)) : Emits P (m >>= f) := by
  intro s e he
  cases h : (m s).ending with
  | ok a =>
    rw [bind_ok h] at he
    rcases List.mem_append.mp he with h1 | h2
    · exact hm s e h1
    · exact hf a _ e h2
  | throw err =>
    rw [bind_throw h] at he
    exact hm s e he
  | pending =>
    rw [bind_pending h] at he
    exact hm s e he

theorem emits_tryCatch {α : Type} {P : Event → Bool} {m : M α} {h : JsError → M α}
    (hm : Emits P m) (hh : ∀ e, Emits P (h e)) : Emits P (tryCatch m h) := by
  intro s e he
  cases hx : (m s).ending with
  | ok a =>
    rw [tryCatch_ok hx] at he
    exact hm s e he
  | throw err =>
    rw [tryCatch_throw hx] at he
    rcases List.mem_append.mp he with h1 | h2
    · exact hm s e h1
    · exact hh err _ e h2
  | pending =>
    rw [tryCatch_pending hx] at he
    exact hm s e he

theorem emits_raise {α : Type} (P : Event → Bool) (err : JsError) :
    Emits P (raise err : M α) := by
  intro s e he
  simp [AutoMint.raise] at he

theorem emits_emit {P : Event → Bool} {ev : Event} (h : P ev = true) : Emits P (emit ev) := by
  intro s e he
  simp only [AutoMint.emit, List.mem_singleton] at he
  rw [he]
  exact h

theorem emits_log {P : Event → Bool} {l : Line} (h : P (Event.log l) = true) :
    Emits P (log l) := emits_emit h

theorem emits_axios {P : Event → Bool} {req : Request}
    (h : ∀ reply, P (Event.http req reply) = true) : Emits P (axios req) := by
  intro s e he
  unfold AutoMint.axios at he
  cases hr : s.http 0 with
  | none =>
    simp only [hr, List.mem_singleton] at he
    rw [he]
    exact h _
  | some r =>
    simp only [hr] at he
    split at he <;>
    · simp only [List.mem_singleton] at he
      rw [he]
      exact h _

theorem emits_mono {α : Type} {P Q : Event → Bool} {m : M α}
    (hm : Emits P m) (h : ∀ e, P e = true → Q e = true) : Emits Q m :=
  fun s e he => h e (hm s e he)

/-! ## The permit builder -/

theorem fdiv_thousand (t : Int) : Int.fdiv t 1000 = ⌊(t : ℚ) / 1000⌋ := by
  rw [Int.fdiv_eq_ediv _ (by norm_num)]
  have := Rat.floor_intCast_div_natCast t 1000
  simpa using this.symm

/-- What `buildPermit` does, case by case. -/
theorem buildPermit_eq (env : Env) (wallet : Wallet) (amount relayer : String) (s : State) :
    buildPermit env wallet amount relayer s =
      match s.network 0 with
      | none => ⟨[Event.getNetwork none], { s with network := fun i => s.network (i + 1) },
          Ending.throw (JsError.ethers "could not detect network")⟩
      | some c =>
        let msg : Authorization :=
          { token := env.TOKEN, sender := wallet.address, recipient := env.RECIPIENT,
            value := amount, validAfter := Int.fdiv (s.clock 0) 1000 - 20,
            validBefore := Int.fdiv (s.clock 0) 1000 + 1800, nonce := s.random 0 }
        let domain : Domain :=
          { name := "B402", version := "1", chainId := c, verifyingContract := relayer }
        let s1 : State :=
          { s with network := fun i => s.network (i + 1), clock := fun i => s.clock (i + 1),
                   random := fun i => s.random (i + 1), sigTyped := fun i => s.sigTyped (i + 1) }
        match s.sigTyped 0 with
        | none => ⟨[Event.getNetwork (some c), Event.signTypedData domain msg none], s1,
            Ending.throw (JsError.ethers "_signTypedData failed")⟩
        | some sig => ⟨[Event.getNetwork (some c), Event.signTypedData domain msg (some sig)], s1,
            Ending.ok { authorization := msg, signature := sig }⟩ := by
  unfold buildPermit
  simp only [bind_apply, M.bind, getNetwork, dateNow, randomNonce, signTypedData, pure_apply]
  cases h1 : s.network 0 <;> simp
  cases h2 : s.sigTyped 0 <;> simp

/-- Claim C10.  `buildPermit` returns a permit exactly when the network read
and the signature succeed, and every permit it returns, built at the clock
reading `t = s.clock 0` with `now = floor (t / 1000)`, has `validAfter = now - 20`
and `validBefore = now + 1800`, hence a window of exactly 1820 seconds. -/
theorem C10_validity_window (env : Env) (wallet : Wallet) (amount relayer : String)
    (s : State) :
    ((buildPermit env wallet amount relayer s).returned = true ↔
      (s.network 0).isSome = true ∧ (s.sigTyped 0).isSome = true) ∧
    ∀ p : SignedPermit, (buildPermit env wallet amount relayer s).value = some p →
      p.authorization.validAfter = ⌊((s.clock 0 : ℤ) : ℚ) / 1000⌋ - 20 ∧
      p.authorization.validBefore = ⌊((s.clock 0 : ℤ) : ℚ) / 1000⌋ + 1800 ∧
      p.authorization.validBefore - p.authorization.validAfter = 1820 := by
  rw [buildPermit_eq, ← fdiv_thousand]
  cases h1 : s.network 0 with
  | none => simp [Res.returned, Res.value]
  | some c =>
    cases h2 : s.sigTyped 0 with
    | none => simp [Res.returned, Res.value]
    | some sig =>
      refine ⟨by simp [Res.returned], ?_⟩
      intro p hp
      simp only [Res.value, Option.some.injEq] at hp
      subst hp
      refine ⟨rfl, rfl, ?_⟩
      simp only
      omega

/-- Claim C10 on the sample world: the clock reads 1700000000123 ms, and the
permit built by `buildPermit` is valid from 1699999999980 to 1700000001800. -/
theorem C10_validity_window_witness :
    (buildPermit sampleEnv ⟨key1, "0xWallet"⟩ "1000000" "0xRelayer"
        (worldWith happyRun)).returned = true ∧
    ∀ p : SignedPermit,
      (buildPermit sampleEnv ⟨key1, "0xWallet"⟩ "1000000" "0xRelayer"
        (worldWith happyRun)).value = some p →
      p.authorization.validAfter = ⌊((1700000000123 : ℤ) : ℚ) / 1000⌋ - 20 ∧
      p.authorization.validBefore = ⌊((1700000000123 : ℤ) : ℚ) / 1000⌋ + 1800 ∧
      p.authorization.validBefore - p.authorization.validAfter = 1820 :=
  ⟨by decide!,
   (C10_validity_window sampleEnv ⟨key1, "0xWallet"⟩ "1000000" "0xRelayer"
      (worldWith happyRun)).2⟩

/-! ## What each section writes -/

theorem emits_silent {α : Type} (P : Event → Bool) {m : M α} (h : ∀ s, (m s).trace = []) :
    Emits P m := by
  intro s e he
  rw [h s] at he
  simp at he

theorem pollLoop_emits (env : Env) (jobId : Option String) (fuel : Nat) :
    Emits Event.inAuth (pollLoop env jobId fuel) := by
  induction fuel with
  | zero =>
    intro s e he
    simp [pollLoop] at he
  | succ n ih =>
    unfold pollLoop
    refine emits_bind (emits_axios (fun _ => rfl)) (fun res => ?_)
    split
    · exact emits_bind (emits_log rfl) (fun _ => emits_pure _ _)
    · exact emits_bind (emits_log rfl) (fun _ => ih)

theorem solveTurnstile_emits (env : Env) (fuel : Nat) :
    Emits Event.inAuth (solveTurnstile env fuel) := by
  unfold solveTurnstile
  refine emits_bind (emits_log rfl) (fun _ => ?_)
  refine emits_bind (emits_axios (fun _ => rfl)) (fun res => ?_)
  split
  · exact emits_bind (emits_log rfl) (fun _ => emits_pure _ _)
  · exact emits_bind (emits_log rfl) (fun _ => pollLoop_emits _ _ _)

theorem signMessage_emits (msg : Option String) : Emits Event.inAuth (signMessage msg) := by
  intro s e he
  unfold signMessage at he
  cases h : s.sigMessage 0 <;> simp only [h, List.mem_singleton] at he <;> rw [he] <;> rfl

theorem inAuth_inLogin (e : Event) (h : Event.inAuth e = true) : Event.inLogin e = true := by
  cases e with
  | log l => cases l <;> first | rfl | simp [Event.inAuth] at h
  | http req reply => cases req <;> first | rfl | simp [Event.inAuth] at h
  | _ => first | rfl | simp [Event.inAuth] at h

theorem login_emits (env : Env) (fuel : Nat) (pk : JsString) :
    Emits Event.inLogin (login env fuel pk) := by
  unfold login
  refine emits_bind (emits_log rfl) (fun _ => ?_)
  refine emits_bind (emits_log rfl) (fun _ => ?_)
  refine emits_bind (emits_log rfl) (fun _ => ?_)
  refine emits_bind (emits_silent _ (fun s => ?_)) (fun wallet => ?_)
  · unfold newWallet
    cases s.walletOf pk <;> rfl
  refine emits_bind (emits_mono (solveTurnstile_emits _ _) inAuth_inLogin) (fun ts => ?_)
  split
  · exact emits_pure _ _
  · refine emits_bind ?_ (fun x => ?_)
    · unfold getChallenge
      refine emits_bind (emits_silent _ (fun s => rfl)) (fun lid => ?_)
      exact emits_bind (emits_axios (fun _ => rfl)) (fun _ => emits_pure _ _)
    · refine emits_bind (emits_mono (signMessage_emits _) inAuth_inLogin) (fun signed => ?_)
      refine emits_bind ?_ (fun verify => ?_)
      · unfold verifyChallenge
        exact emits_bind (emits_axios (fun _ => rfl)) (fun _ => emits_pure _ _)
      · exact emits_bind (emits_log rfl) (fun _ => emits_pure _ _)

theorem newContract_emits (P : Event → Bool) (address : Option String) :
    Emits P (newContract address) := by
  refine emits_silent _ (fun s => ?_)
  unfold newContract
  cases address <;> rfl

theorem tokenAllowance_emits (token : Contract) (owner spender : String) :
    Emits Event.inApprove (tokenAllowance token owner spender) := by
  intro s e he
  unfold tokenAllowance at he
  split at he <;> simp only [List.mem_singleton] at he <;> rw [he] <;> rfl

theorem tokenApprove_emits (token : Contract) (owner spender : String)
    (value gasLimit : Nat) :
    Emits Event.inApprove (tokenApprove token owner spender value gasLimit) := by
  intro s e he
  unfold tokenApprove at he
  cases h : s.approveTx 0 <;> simp only [h, List.mem_singleton] at he <;> rw [he] <;> rfl

theorem txWait_emits (tx : ApproveTx) : Emits Event.inApprove (txWait tx) := by
  intro s e he
  unfold txWait at he
  split at he <;> simp only [List.mem_singleton] at he <;> rw [he] <;> rfl

theorem checkAllowance_emits (env : Env) (WALLET : String) :
    Emits Event.inApprove (checkAllowance env WALLET) := by
  unfold checkAllowance
  refine emits_bind (newContract_emits _ _) (fun token => ?_)
  refine emits_tryCatch ?_ (fun _ => ?_)
  · exact emits_bind (tokenAllowance_emits _ _ _) (fun _ => emits_pure _ _)
  · exact emits_bind (emits_log rfl) (fun _ => emits_pure _ _)

theorem approveUnlimited_emits (env : Env) (WALLET : String) :
    Emits Event.inApprove (approveUnlimited env WALLET) := by
  unfold approveUnlimited
  refine emits_bind (checkAllowance_emits _ _) (fun cur => ?_)
  split
  · exact emits_log rfl
  · refine emits_bind (newContract_emits _ _) (fun token => ?_)
    refine emits_bind (emits_log rfl) (fun _ => ?_)
    refine emits_tryCatch ?_ (fun _ => emits_log rfl)
    refine emits_bind (tokenApprove_emits _ _ _ _ _) (fun tx => ?_)
    refine emits_bind (emits_log rfl) (fun _ => ?_)
    exact emits_bind (txWait_emits _) (fun _ => emits_log rfl)

theorem fetchRequirements_emits (env : Env) (jwt : Option String) :
    Emits Event.inFetch (fetchRequirements env jwt) := by
  unfold fetchRequirements
  refine emits_tryCatch ?_ (fun err => ?_)
  · exact emits_bind (emits_axios (fun _ => rfl)) (fun _ => emits_pure _ _)
  · split
    · split
      · split
        · exact emits_bind (emits_log rfl) (fun _ => emits_pure _ _)
        · exact emits_raise _ _
      · exact emits_raise _ _
    · exact emits_bind (emits_log rfl) (fun _ => emits_pure _ _)

theorem buildPermit_emits (env : Env) (wallet : Wallet) (amount relayer : String) :
    Emits Event.inBuild (buildPermit env wallet amount relayer) := by
  intro s e he
  rw [buildPermit_eq] at he
  cases h1 : s.network 0 with
  | none =>
    simp only [h1, List.mem_singleton] at he
    rw [he]
    rfl
  | some c =>
    cases h2 : s.sigTyped 0 <;> simp only [h1, h2, List.mem_cons, List.mem_singleton,
      List.not_mem_nil, or_false] at he <;> rcases he with he | he <;> rw [he] <;> rfl

theorem buildLoop_emits (env : Env) (wallet : Wallet) (pay : Option PaymentRequirements)
    (k : Nat) (permits : List SignedPermit) :
    Emits Event.inBuild (buildLoop env wallet pay k permits) := by
  induction k generalizing permits with
  | zero =>
    unfold buildLoop
    exact emits_pure _ _
  | succ n ih =>
    unfold buildLoop
    split
    · exact emits_raise _ _
    · exact emits_bind (buildPermit_emits _ _ _ _) (fun _ => ih _)

theorem buildPermits_emits (env : Env) (wallet : Wallet) (pay : Option PaymentRequirements) :
    Emits Event.inBuild (buildPermits env wallet pay) := by
  unfold buildPermits
  exact emits_bind (emits_log rfl) (fun _ => buildLoop_emits _ _ _ _ _)

theorem postPermit_emits (env : Env) (jwt : Option String) (pay : Option PaymentRequirements)
    (p : SignedPermit) : Emits Event.inSend (postPermit env jwt pay p) := by
  unfold postPermit
  split
  · exact emits_raise _ _
  · exact emits_axios (fun _ => rfl)

theorem settle_emits {α : Type} {P : Event → Bool} {m : M α} (h : Emits P m) :
    Emits P (settle m) := by
  unfold settle
  exact emits_tryCatch (emits_bind h (fun _ => emits_pure _ _)) (fun _ => emits_pure _ _)

theorem sendPermits_emits (env : Env) (jwt : Option String) (pay : Option PaymentRequirements)
    (permits : List SignedPermit) : Emits Event.inSend (sendPermits env jwt pay permits) := by
  induction permits with
  | nil =>
    unfold sendPermits
    exact emits_pure _ _
  | cons p rest ih =>
    unfold sendPermits
    refine emits_bind (settle_emits (postPermit_emits _ _ _ _)) (fun r => ?_)
    exact emits_bind ih (fun _ => emits_pure _ _)

theorem logMints_emits (rs : List (Except JsError Response)) :
    Emits Event.inSend (logMints rs) := by
  induction rs with
  | nil =>
    unfold logMints
    exact emits_pure _ _
  | cons r rest ih =>
    unfold logMints
    refine emits_bind ?_ (fun _ => ih)
    unfold logMint
    split
    · exact emits_log rfl
    · exact emits_log rfl

theorem inSend_inFire (e : Event) (h : Event.inSend e = true) : Event.inFire e = true := by
  cases e with
  | log l => cases l <;> first | rfl | simp [Event.inSend] at h
  | http req reply =>
    cases req with
    | drip jwt rcp pay => cases pay <;> first | rfl | simp [Event.inSend] at h
    | _ => simp [Event.inSend] at h
  | _ => simp [Event.inSend] at h

theorem firePermits_emits (env : Env) (jwt : Option String) (pay : Option PaymentRequirements)
    (permits : List SignedPermit) : Emits Event.inFire (firePermits env jwt pay permits) := by
  unfold firePermits
  refine emits_bind (emits_log rfl) (fun _ => ?_)
  exact emits_bind (emits_mono (sendPermits_emits _ _ _ _) inSend_inFire)
    (fun _ => emits_mono (logMints_emits _) inSend_inFire)

/-! ## The allowance manager -/

/-- What `checkAllowance` does when `TOKEN` is set, case by case. -/
theorem checkAllowance_eq (env : Env) (WALLET tok : String) (s : State)
    (ht : env.TOKEN = some tok) :
    checkAllowance env WALLET s =
      if s.readOk 0 then
        ⟨[Event.allowanceCall WALLET env.RELAYER (some (s.allowance tok WALLET env.RELAYER))],
          { s with readOk := fun i => s.readOk (i + 1) },
          Ending.ok (s.allowance tok WALLET env.RELAYER)⟩
      else
        ⟨[Event.allowanceCall WALLET env.RELAYER none, Event.log Line.checkAllowanceError],
          { s with readOk := fun i => s.readOk (i + 1) }, Ending.ok 0⟩ := by
  unfold checkAllowance tryCatch
  simp only [bind_apply, M.bind, newContract, ht, tokenAllowance, pure_apply, log, emit]
  cases h : s.readOk 0 <;> simp

/-- What `checkAllowance` does when `TOKEN` is not set: the constructor of the
contract raises before the `try` block. -/
theorem checkAllowance_no_token (env : Env) (WALLET : String) (s : State)
    (ht : env.TOKEN = none) :
    checkAllowance env WALLET s =
      ⟨[], s, Ending.throw (JsError.ethers "invalid contract address or ENS name")⟩ := by
  unfold checkAllowance
  simp only [bind_apply, M.bind, newContract, ht]

/-- The approval block of `approveUnlimited` (lines 119-135) when `TOKEN` is
set, from the state left by the read of the allowance. -/
theorem approveBlock_eq (env : Env) (WALLET tok : String) (s : State)
    (ht : env.TOKEN = some tok) :
    (do
      let token ← newContract env.TOKEN
      log Line.approving
      tryCatch
        (do
          let Max := MaxUint256
          let tx ← tokenApprove token WALLET env.RELAYER Max 60000
          log Line.approveTx
          txWait tx
          log Line.approveConfirmed)
        (fun _ => log Line.approveFailed) : M Unit) s =
      match s.approveTx 0 with
      | none =>
        ⟨[Event.log Line.approving, Event.approveCall env.RELAYER MaxUint256 60000 none,
            Event.log Line.approveFailed],
          { s with approveTx := fun i => s.approveTx (i + 1) }, Ending.ok ()⟩
      | some h =>
        if s.receipt 0 then
          ⟨[Event.log Line.approving, Event.approveCall env.RELAYER MaxUint256 60000 (some h),
              Event.log Line.approveTx, Event.waitCall h true, Event.log Line.approveConfirmed],
            { s with approveTx := fun i => s.approveTx (i + 1),
                     receipt := fun i => s.receipt (i + 1),
                     allowance := setAllowance s.allowance tok WALLET env.RELAYER MaxUint256 },
            Ending.ok ()⟩
        else
          ⟨[Event.log Line.approving, Event.approveCall env.RELAYER MaxUint256 60000 (some h),
              Event.log Line.approveTx, Event.waitCall h false, Event.log Line.approveFailed],
            { s with approveTx := fun i => s.approveTx (i + 1),
                     receipt := fun i => s.receipt (i + 1) },
            Ending.ok ()⟩ := by
  simp only [bind_apply, M.bind, newContract, ht, tryCatch, tokenApprove, txWait, pure_apply,
    log, emit]
  cases h1 : s.approveTx 0 with
  | none => simp
  | some h =>
    cases h2 : s.receipt 0 <;> simp [h2]

theorem approveUnlimited_eq (env : Env) (WALLET : String) (s : State) :
    approveUnlimited env WALLET s =
      M.bind (checkAllowance env WALLET) (fun currentAllowance =>
        if currentAllowance > 0 then log Line.alreadyApproved
        else (do
          let token ← newContract env.TOKEN
          log Line.approving
          tryCatch
            (do
              let Max := MaxUint256
              let tx ← tokenApprove token WALLET env.RELAYER Max 60000
              log Line.approveTx
              txWait tx
              log Line.approveConfirmed)
            (fun _ => log Line.approveFailed) : M Unit)) s := rfl

/-- With `TOKEN` set, `approveUnlimited` returns from every state. -/
theorem approveUnlimited_returns (env : Env) (WALLET tok : String) (s : State)
    (ht : env.TOKEN = some tok) :
    (approveUnlimited env WALLET s).returned = true := by
  rw [approveUnlimited_eq]
  unfold M.bind
  rw [checkAllowance_eq env WALLET tok s ht]
  cases h : s.readOk 0
  · simp only [Bool.false_eq_true, if_false, gt_iff_lt, lt_self_iff_false]
    rw [approveBlock_eq env WALLET tok _ ht]
    simp only
    cases h1 : s.approveTx 0
    · simp [Res.returned]
    · cases h2 : s.receipt 0 <;> simp [Res.returned]
  · simp only [if_true]
    split
    · simp [log, emit, Res.returned]
    · rw [approveBlock_eq env WALLET tok _ ht]
      simp only
      cases h1 : s.approveTx 0
      · simp [Res.returned]
      · cases h2 : s.receipt 0 <;> simp [Res.returned]

/-- With `TOKEN` not set, `approveUnlimited` raises the error of the
constructor of the contract, having done nothing. -/
theorem approveUnlimited_no_token (env : Env) (WALLET : String) (s : State)
    (ht : env.TOKEN = none) :
    approveUnlimited env WALLET s =
      ⟨[], s, Ending.throw (JsError.ethers "invalid contract address or ENS name")⟩ := by
  rw [approveUnlimited_eq]
  unfold M.bind
  rw [checkAllowance_no_token env WALLET s ht]

/-! ## The anatomy of a wallet run -/

theorem runForWallet_eq (env : Env) (fuel : Nat) (pk : JsString) :
    runForWallet env fuel pk =
      (login env fuel pk >>= fun x =>
        match x with
        | Flow.ret => pure ()
        | Flow.next (wallet, jwt) =>
          approveUnlimited env wallet.address >>= fun _ =>
            fetchRequirements env jwt >>= fun y =>
              match y with
              | Flow.ret => pure ()
              | Flow.next pay =>
                buildPermits env wallet pay >>= fun permits =>
                  firePermits env jwt pay permits) := rfl

theorem returned_ending {α : Type} {r : Res α} (h : r.returned = true) :
    ∃ a, r.ending = Ending.ok a := by
  unfold Res.returned at h
  split at h
  · exact ⟨_, by assumption⟩
  · exact absurd h (by simp)

/-- The anatomy of a wallet run: where it ends, and the traces of the sections
it went through. -/
theorem run_anatomy (env : Env) (fuel : Nat) (pk : JsString) (s : State) :
    ((∀ w, (login env fuel pk s).ending ≠ Ending.ok (Flow.next w)) ∧
      (runForWallet env fuel pk s).trace = (login env fuel pk s).trace ∧
      (runForWallet env fuel pk s).returned = (login env fuel pk s).returned ∧
      (runForWallet env fuel pk s).error = (login env fuel pk s).error ∧
      (runForWallet env fuel pk s).polling = (login env fuel pk s).polling) ∨
    (∃ wallet jwt, (login env fuel pk s).ending = Ending.ok (Flow.next (wallet, jwt)) ∧
      (approveUnlimited env wallet.address (login env fuel pk s).state).returned = false ∧
      (runForWallet env fuel pk s).trace =
        (login env fuel pk s).trace ++
        (approveUnlimited env wallet.address (login env fuel pk s).state).trace ∧
      (runForWallet env fuel pk s).returned = false ∧
      (runForWallet env fuel pk s).error =
        (approveUnlimited env wallet.address (login env fuel pk s).state).error ∧
      (runForWallet env fuel pk s).polling =
        (approveUnlimited env wallet.address (login env fuel pk s).state).polling) ∨
    (∃ wallet jwt s2, (login env fuel pk s).ending = Ending.ok (Flow.next (wallet, jwt)) ∧
      s2 = (approveUnlimited env wallet.address (login env fuel pk s).state).state ∧
      (((∀ p, (fetchRequirements env jwt s2).ending ≠ Ending.ok (Flow.next p)) ∧
        (runForWallet env fuel pk s).trace =
          (login env fuel pk s).trace ++
          (approveUnlimited env wallet.address (login env fuel pk s).state).trace ++
          (fetchRequirements env jwt s2).trace ∧
        (runForWallet env fuel pk s).returned = (fetchRequirements env jwt s2).returned ∧
        (runForWallet env fuel pk s).error = (fetchRequirements env jwt s2).error ∧
        (runForWallet env fuel pk s).polling = (fetchRequirements env jwt s2).polling) ∨
      (∃ pay, (fetchRequirements env jwt s2).ending = Ending.ok (Flow.next pay) ∧
        (runForWallet env fuel pk s).trace =
          (login env fuel pk s).trace ++
          (approveUnlimited env wallet.address (login env fuel pk s).state).trace ++
          (fetchRequirements env jwt s2).trace ++
          ((buildPermits env wallet pay >>= fun permits => firePermits env jwt pay permits)
            (fetchRequirements env jwt s2).state).trace ∧
        (runForWallet env fuel pk s).ending =
          ((buildPermits env wallet pay >>= fun permits => firePermits env jwt pay permits)
            (fetchRequirements env jwt s2).state).ending))) := by
  rw [runForWallet_eq]
  cases h1 : (login env fuel pk s).ending with
  | throw e =>
    left
    rw [bind_throw h1]
    simp [Res.returned, Res.error, Res.polling, h1]
  | pending =>
    left
    rw [bind_pending h1]
    simp [Res.returned, Res.error, Res.polling, h1]
  | ok x =>
    rw [bind_ok h1]
    cases x with
    | ret =>
      left
      simp [Res.returned, Res.error, Res.polling, h1, pure_apply]
    | next w =>
      obtain ⟨wallet, jwt⟩ := w
      right
      simp only
      cases h2 : (approveUnlimited env wallet.address (login env fuel pk s).state).ending with
      | throw e =>
        left
        refine ⟨wallet, jwt, rfl, ?_⟩
        rw [bind_throw h2]
        simp [Res.returned, Res.error, Res.polling, h2]
      | pending =>
        left
        refine ⟨wallet, jwt, rfl, ?_⟩
        rw [bind_pending h2]
        simp [Res.returned, Res.error, Res.polling, h2]
      | ok u =>
        right
        refine ⟨wallet, jwt, _, rfl, rfl, ?_⟩
        rw [bind_ok h2]
        simp only
        cases h3 : (fetchRequirements env jwt
            (approveUnlimited env wallet.address (login env fuel pk s).state).state).ending with
        | throw e =>
          left
          rw [bind_throw h3]
          simp [Res.returned, Res.error, Res.polling, h3]
        | pending =>
          left
          rw [bind_pending h3]
          simp [Res.returned, Res.error, Res.polling, h3]
        | ok y =>
          rw [bind_ok h3]
          cases y with
          | ret =>
            left
            simp [Res.returned, Res.error, Res.polling, h3, pure_apply]
          | next pay =>
            right
            exact ⟨pay, rfl, by simp, rfl⟩

/-! ## Requirement discovery -/

/-- What the section FETCH REQUIREMENTS does, case by case on the reply to the
first drip request. -/
theorem fetchRequirements_eq (env : Env) (jwt : Option String) (s : State) :
    fetchRequirements env jwt s =
      match s.http 0 with
      | none =>
        ⟨[Event.http (Request.drip jwt env.RECIPIENT none) none,
            Event.log Line.cannotGetRequirement],
          { s with http := fun i => s.http (i + 1) }, Ending.ok Flow.ret⟩
      | some r =>
        if 200 ≤ r.status ∧ r.status < 300 then
          ⟨[Event.http (Request.drip jwt env.RECIPIENT none) (some r)],
            { s with http := fun i => s.http (i + 1) }, Ending.ok (Flow.next none)⟩
        else if r.status = 402 then
          match r.data.paymentRequirements with
          | some pay =>
            ⟨[Event.http (Request.drip jwt env.RECIPIENT none) (some r),
                Event.log Line.requirement],
              { s with http := fun i => s.http (i + 1) }, Ending.ok (Flow.next (some pay))⟩
          | none =>
            ⟨[Event.http (Request.drip jwt env.RECIPIENT none) (some r)],
              { s with http := fun i => s.http (i + 1) },
              Ending.throw
                (JsError.typeError "Cannot read properties of undefined (reading amount)")⟩
        else
          ⟨[Event.http (Request.drip jwt env.RECIPIENT none) (some r),
              Event.log Line.cannotGetRequirement],
            { s with http := fun i => s.http (i + 1) }, Ending.ok Flow.ret⟩ := by
  unfold fetchRequirements tryCatch
  simp only [bind_apply, M.bind, axios, pure_apply, log, emit, raise]
  cases h : s.http 0 with
  | none => simp [JsError.responseStatus, bind_apply, M.bind, pure_apply, emit]
  | some r =>
    by_cases h2 : 200 ≤ r.status ∧ r.status < 300
    · simp [h2]
    · by_cases h3 : r.status = 402
      · cases h4 : r.data.paymentRequirements <;>
          simp [h2, h3, h4, JsError.responseStatus, bind_apply, M.bind, pure_apply, emit, raise]
      · simp [h2, h3, JsError.responseStatus, bind_apply, M.bind, pure_apply, emit]

/-! ## Reading the traces of the sections -/

theorem filterMap_nil_of {β : Type} {f : Event → Option β} {d : List Event}
    (h : ∀ e ∈ d, f e = none) : d.filterMap f = [] := by
  induction d with
  | nil => rfl
  | cons e rest ih =>
    rw [List.filterMap_cons, h e (List.mem_cons_self _ _)]
    exact ih (fun x hx => h x (List.mem_cons_of_mem _ hx))

theorem signedPermits_append (d1 d2 : List Event) :
    signedPermits (d1 ++ d2) = signedPermits d1 ++ signedPermits d2 := by
  unfold signedPermits
  exact List.filterMap_append _ _ _

theorem payments_append (d1 d2 : List Event) :
    payments (d1 ++ d2) = payments d1 ++ payments d2 := by
  unfold payments
  exact List.filterMap_append _ _ _

theorem signedPermits_nil_of_not_inBuild {d : List Event}
    (h : ∀ e ∈ d, Event.inBuild e = false) : signedPermits d = [] := by
  refine filterMap_nil_of (fun e he => ?_)
  have := h e he
  cases e with
  | signTypedData dom msg sig => simp [Event.inBuild] at this
  | _ => rfl

theorem payments_nil_of_not_inFire {d : List Event}
    (h : ∀ e ∈ d, Event.inFire e = false) : payments d = [] := by
  refine filterMap_nil_of (fun e he => ?_)
  have := h e he
  cases e with
  | http req reply =>
    cases req with
    | drip jwt rcp pay =>
      cases pay with
      | none => rfl
      | some p => simp [Event.inFire] at this
    | _ => rfl
  | _ => rfl

theorem inLogin_not_inBuild (e : Event) (h : Event.inLogin e = true) :
    Event.inBuild e = false := by
  cases e with
  | log l => cases l <;> first | rfl | simp [Event.inLogin] at h
  | _ => first | rfl | simp [Event.inLogin] at h

theorem inLogin_not_inFire (e : Event) (h : Event.inLogin e = true) :
    Event.inFire e = false := by
  cases e with
  | log l => cases l <;> first | rfl | simp [Event.inLogin] at h
  | http req reply => cases req <;> first | rfl | simp [Event.inLogin] at h
  | _ => rfl

theorem inApprove_not_inBuild (e : Event) (h : Event.inApprove e = true) :
    Event.inBuild e = false := by
  cases e with
  | log l => cases l <;> first | rfl | simp [Event.inApprove] at h
  | _ => first | rfl | simp [Event.inApprove] at h

theorem inApprove_not_inFire (e : Event) (h : Event.inApprove e = true) :
    Event.inFire e = false := by
  cases e with
  | log l => cases l <;> first | rfl | simp [Event.inApprove] at h
  | _ => first | rfl | simp [Event.inApprove] at h

theorem inFetch_not_inBuild (e : Event) (h : Event.inFetch e = true) :
    Event.inBuild e = false := by
  cases e with
  | log l => cases l <;> first | rfl | simp [Event.inFetch] at h
  | _ => first | rfl | simp [Event.inFetch] at h

theorem inFetch_not_inFire (e : Event) (h : Event.inFetch e = true) :
    Event.inFire e = false := by
  cases e with
  | log l => cases l <;> first | rfl | simp [Event.inFetch] at h
  | http req reply =>
    cases req with
    | drip jwt rcp pay => cases pay <;> first | rfl | simp [Event.inFetch] at h
    | _ => rfl
  | _ => rfl

theorem inBuild_not_inFire (e : Event) (h : Event.inBuild e = true) :
    Event.inFire e = false := by
  cases e with
  | log l => cases l <;> first | rfl | simp [Event.inBuild] at h
  | _ => first | rfl | simp [Event.inBuild] at h

theorem inFire_not_inBuild (e : Event) (h : Event.inFire e = true) :
    Event.inBuild e = false := by
  cases e with
  | log l => cases l <;> first | rfl | simp [Event.inFire] at h
  | _ => first | rfl | simp [Event.inFire] at h

/-! ## Building and sending the permits -/

theorem mem_signedPermits {d : List Event} {p : SignedPermit} (h : p ∈ signedPermits d) :
    ∃ dom, Event.signTypedData dom p.authorization (some p.signature) ∈ d := by
  unfold signedPermits at h
  rcases List.mem_filterMap.mp h with ⟨e, he, hp⟩
  cases e with
  | signTypedData dom msg sig =>
    cases sig with
    | none => simp at hp
    | some sg =>
      simp only [Option.some.injEq] at hp
      subst hp
      exact ⟨dom, he⟩
  | _ => simp at hp

/-- The loop that builds the permits: every signature requested signs the
amount and the relayer of the requirement, and when the loop returns, the
permits it returns are the ones it was given followed by those it built, one
for each round. -/
theorem buildLoop_spec (env : Env) (wallet : Wallet) (pay : Option PaymentRequirements)
    (k : Nat) (acc : List SignedPermit) (s : State) :
    (∀ p, pay = some p → ∀ dom msg sig,
      Event.signTypedData dom msg sig ∈ (buildLoop env wallet pay k acc s).trace →
        msg.value = p.amount ∧ dom.verifyingContract = p.relayerContract) ∧
    (∀ permits, (buildLoop env wallet pay k acc s).ending = Ending.ok permits →
      permits = acc ++ signedPermits (buildLoop env wallet pay k acc s).trace ∧
      (signedPermits (buildLoop env wallet pay k acc s).trace).length = k) := by
  induction k generalizing acc s with
  | zero =>
    unfold buildLoop
    simp [pure_apply, signedPermits]
  | succ n ih =>
    unfold buildLoop
    cases pay with
    | none => simp [raise]
    | some q =>
      simp only
      cases hb : (buildPermit env wallet q.amount q.relayerContract s).ending with
      | pending =>
        rw [buildPermit_eq] at hb
        cases h1 : s.network 0 with
        | none => simp [h1] at hb
        | some c => cases h2 : s.sigTyped 0 <;> simp [h1, h2] at hb
      | throw e =>
        rw [bind_throw hb]
        refine ⟨?_, by simp⟩
        intro p hp dom msg sig hmem
        simp only [Option.some.injEq] at hp
        subst hp
        simp only at hmem
        rw [buildPermit_eq] at hmem
        cases h1 : s.network 0 with
        | none => simp [h1] at hmem
        | some c =>
          cases h2 : s.sigTyped 0 with
          | none =>
            simp [h1, h2] at hmem
            obtain ⟨rfl, rfl, _⟩ := hmem
            exact ⟨rfl, rfl⟩
          | some sg =>
            simp [h1, h2] at hmem
            obtain ⟨rfl, rfl, _⟩ := hmem
            exact ⟨rfl, rfl⟩
      | ok permit =>
        rw [bind_ok hb]
        obtain ⟨ih1, ih2⟩ := ih (acc ++ [permit])
          (buildPermit env wallet q.amount q.relayerContract s).state
        have hone : (∀ dom msg sig, Event.signTypedData dom msg sig ∈
              (buildPermit env wallet q.amount q.relayerContract s).trace →
              msg.value = q.amount ∧ dom.verifyingContract = q.relayerContract) ∧
            signedPermits (buildPermit env wallet q.amount q.relayerContract s).trace =
              [permit] := by
          rw [buildPermit_eq] at hb ⊢
          cases h1 : s.network 0 with
          | none => simp [h1] at hb
          | some c =>
            cases h2 : s.sigTyped 0 with
            | none => simp [h1, h2] at hb
            | some sg =>
              simp only [h1, h2, Ending.ok.injEq] at hb
              subst hb
              refine ⟨?_, by simp [signedPermits]⟩
              intro dom msg sig hmem
              simp at hmem
              obtain ⟨rfl, rfl, _⟩ := hmem
              exact ⟨rfl, rfl⟩
        refine ⟨?_, ?_⟩
        · intro p hp dom msg sig hmem
          simp only [Option.some.injEq] at hp
          subst hp
          simp only at hmem
          rcases List.mem_append.mp hmem with h | h
          · exact hone.1 dom msg sig h
          · exact ih1 q rfl dom msg sig h
        · intro permits hp
          simp only at hp
          obtain ⟨e1, e2⟩ := ih2 permits hp
          simp only [signedPermits_append, hone.2]
          refine ⟨?_, ?_⟩
          · rw [e1]
            simp
          · simp only [List.length_append, List.length_singleton, e2]
            omega

/-- The payment a drip request carries for permit `p` under requirement `q`. -/
theorem settle_postPermit (env : Env) (jwt : Option String) (pay : Option PaymentRequirements)
    (p : SignedPermit) (s : State) :
    (∃ x, (settle (postPermit env jwt pay p) s).ending = Ending.ok x) ∧
    payments (settle (postPermit env jwt pay p) s).trace =
      match pay with
      | none => []
      | some q =>
        [{ token := env.TOKEN, payload := p, network := q.network,
           relayerContract := q.relayerContract }] := by
  unfold settle postPermit tryCatch
  cases pay with
  | none => simp [bind_apply, M.bind, raise, pure_apply, payments]
  | some q =>
    simp only [bind_apply, M.bind, axios, pure_apply]
    cases h : s.http 0 with
    | none => simp [payments]
    | some r =>
      by_cases h2 : 200 ≤ r.status ∧ r.status < 300 <;> simp [h2, payments]

/-- The requests of the batch: `sendPermits` always returns, and it sends one
request for each permit, in the order of the permits, each carrying its permit
and the network and relayer of the requirement. -/
theorem sendPermits_spec (env : Env) (jwt : Option String) (pay : Option PaymentRequirements)
    (permits : List SignedPermit) (s : State) :
    (∃ rs, (sendPermits env jwt pay permits s).ending = Ending.ok rs) ∧
    payments (sendPermits env jwt pay permits s).trace =
      match pay with
      | none => []
      | some q => permits.map (fun p =>
          { token := env.TOKEN, payload := p, network := q.network,
            relayerContract := q.relayerContract }) := by
  induction permits generalizing s with
  | nil =>
    unfold sendPermits
    cases pay <;> simp [pure_apply, payments]
  | cons p rest ih =>
    unfold sendPermits
    obtain ⟨⟨x, hx⟩, hpay⟩ := settle_postPermit env jwt pay p s
    rw [bind_ok hx]
    obtain ⟨⟨rs, hrs⟩, hrest⟩ := ih (settle (postPermit env jwt pay p) s).state
    rw [bind_ok hrs]
    refine ⟨⟨x :: rs, by simp [pure_apply]⟩, ?_⟩
    simp only [pure_apply, List.append_nil, payments_append, hpay, hrest]
    cases pay <;> simp

theorem logMints_returns (rs : List (Except JsError Response)) (s : State) :
    (logMints rs s).ending = Ending.ok () := by
  induction rs generalizing s with
  | nil => rfl
  | cons r rest ih =>
    unfold logMints
    have h : (logMint r s).ending = Ending.ok () := by
      unfold logMint
      cases r <;> rfl
    rw [bind_ok h]
    exact ih _

theorem logMints_payments (rs : List (Except JsError Response)) (s : State) :
    payments (logMints rs s).trace = [] := by
  induction rs generalizing s with
  | nil => rfl
  | cons r rest ih =>
    unfold logMints
    have h : (logMint r s).ending = Ending.ok () := by
      unfold logMint
      cases r <;> rfl
    rw [bind_ok h]
    simp only [payments_append, ih, List.append_nil]
    unfold logMint
    cases r <;> rfl

/-- The section FIRE PERMITS always returns; it sends the permits as
`sendPermits` does. -/
theorem firePermits_spec (env : Env) (jwt : Option String) (pay : Option PaymentRequirements)
    (permits : List SignedPermit) (s : State) :
    (firePermits env jwt pay permits s).ending = Ending.ok () ∧
    payments (firePermits env jwt pay permits s).trace =
      match pay with
      | none => []
      | some q => permits.map (fun p =>
          { token := env.TOKEN, payload := p, network := q.network,
            relayerContract := q.relayerContract }) := by
  unfold firePermits
  have h0 : (log Line.sending s).ending = Ending.ok () := rfl
  rw [bind_ok h0]
  obtain ⟨⟨rs, hrs⟩, hpay⟩ := sendPermits_spec env jwt pay permits (log Line.sending s).state
  rw [bind_ok hrs]
  refine ⟨logMints_returns _ _, ?_⟩
  simp only [payments_append, hpay, logMints_payments, List.append_nil]
  have h1 : payments (log Line.sending s).trace = [] := rfl
  rw [h1]
  rfl

/-- The sections BUILD PERMITS and FIRE PERMITS together, from any state.
If the line `Sending permits...` is written, then the run returns, exactly
`MINT_COUNT` permits were built, and the payloads of the requests sent are
these permits, in the order they were built.  Under a requirement `p`, every
signature signs its amount under its relayer, and every request carries its
network, its relayer, the token, and a permit for its amount. -/
theorem mint_spec (env : Env) (wallet : Wallet) (jwt : Option String)
    (pay : Option PaymentRequirements) (s : State) :
    (Event.log Line.sending ∈
        ((buildPermits env wallet pay >>= fun permits =>
          firePermits env jwt pay permits) s).trace →
      ((buildPermits env wallet pay >>= fun permits =>
          firePermits env jwt pay permits) s).ending = Ending.ok () ∧
      (signedPermits ((buildPermits env wallet pay >>= fun permits =>
          firePermits env jwt pay permits) s).trace).length = env.mintCount ∧
      (payments ((buildPermits env wallet pay >>= fun permits =>
          firePermits env jwt pay permits) s).trace).map Payment.payload =
        signedPermits ((buildPermits env wallet pay >>= fun permits =>
          firePermits env jwt pay permits) s).trace) ∧
    (∀ p, pay = some p →
      (∀ dom msg sig, Event.signTypedData dom msg sig ∈
          ((buildPermits env wallet pay >>= fun permits =>
            firePermits env jwt pay permits) s).trace →
        msg.value = p.amount ∧ dom.verifyingContract = p.relayerContract) ∧
      (∀ pm ∈ payments ((buildPermits env wallet pay >>= fun permits =>
            firePermits env jwt pay permits) s).trace,
        pm.token = env.TOKEN ∧ pm.network = p.network ∧
        pm.relayerContract = p.relayerContract ∧
        pm.payload.authorization.value = p.amount)) := by
  have hbuild : ∀ s0, (buildPermits env wallet pay s0).trace =
        Event.log Line.building :: (buildLoop env wallet pay env.mintCount [] s0).trace ∧
      (buildPermits env wallet pay s0).ending =
        (buildLoop env wallet pay env.mintCount [] s0).ending ∧
      (buildPermits env wallet pay s0).state =
        (buildLoop env wallet pay env.mintCount [] s0).state := by
    intro s0
    unfold buildPermits
    have h0 : (log Line.building s0).ending = Ending.ok () := rfl
    rw [bind_ok h0]
    exact ⟨rfl, rfl, rfl⟩
  obtain ⟨hb1, hb2, hb3⟩ := hbuild s
  obtain ⟨hl1, hl2⟩ := buildLoop_spec env wallet pay env.mintCount [] s
  have hsb : signedPermits (buildPermits env wallet pay s).trace =
      signedPermits (buildLoop env wallet pay env.mintCount [] s).trace := by
    rw [hb1]
    rfl
  have hpb : payments (buildPermits env wallet pay s).trace = [] :=
    payments_nil_of_not_inFire
      (fun e he => inBuild_not_inFire e (buildPermits_emits env wallet pay s e he))
  have hsignb : ∀ p, pay = some p → ∀ dom msg sig,
      Event.signTypedData dom msg sig ∈ (buildPermits env wallet pay s).trace →
      msg.value = p.amount ∧ dom.verifyingContract = p.relayerContract := by
    intro p hp dom msg sig hmem
    rw [hb1] at hmem
    rcases List.mem_cons.mp hmem with h | h
    · exact absurd h (by simp)
    · exact hl1 p hp dom msg sig h
  cases h4 : (buildPermits env wallet pay s).ending with
  | throw e =>
    rw [bind_throw h4]
    refine ⟨?_, ?_⟩
    · intro hmem
      have := buildPermits_emits env wallet pay s _ hmem
      simp [Event.inBuild] at this
    · intro p hp
      refine ⟨hsignb p hp, ?_⟩
      intro pm hpm
      simp only [hpb] at hpm
      simp at hpm
  | pending =>
    rw [bind_pending h4]
    refine ⟨?_, ?_⟩
    · intro hmem
      have := buildPermits_emits env wallet pay s _ hmem
      simp [Event.inBuild] at this
    · intro p hp
      refine ⟨hsignb p hp, ?_⟩
      intro pm hpm
      simp only [hpb] at hpm
      simp at hpm
  | ok permits =>
    rw [bind_ok h4]
    obtain ⟨hf1, hf2⟩ := firePermits_spec env jwt pay permits (buildPermits env wallet pay s).state
    have hsf : signedPermits (firePermits env jwt pay permits
        (buildPermits env wallet pay s).state).trace = [] :=
      signedPermits_nil_of_not_inBuild
        (fun e he => inFire_not_inBuild e (firePermits_emits env jwt pay permits _ e he))
    rw [hb2] at h4
    obtain ⟨hp1, hp2⟩ := hl2 permits h4
    simp only [List.nil_append] at hp1
    simp only [signedPermits_append, payments_append, hsf, hpb, List.append_nil,
      List.nil_append, hsb, hf2, hf1]
    refine ⟨fun _ => ⟨trivial, hp2, ?_⟩, ?_⟩
    · cases pay with
      | none =>
        simp only [List.map_nil]
        have : env.mintCount = 0 := by
          cases hn : env.mintCount with
          | zero => rfl
          | succ n =>
            rw [hn] at h4
            unfold buildLoop at h4
            simp [raise] at h4
        exact (List.length_eq_zero.mp (hp2.trans this)).symm
      | some q =>
        simp only [List.map_map]
        rw [← hp1]
        exact List.map_id _
    · intro p hp
      refine ⟨?_, ?_⟩
      · intro dom msg sig hmem
        rcases List.mem_append.mp hmem with h | h
        · exact hsignb p hp dom msg sig h
        · have := firePermits_emits env jwt pay permits _ _ h
          simp [Event.inFire] at this
      · intro pm hpm
        subst hp
        simp only [List.mem_map] at hpm
        obtain ⟨sp, hsp, rfl⟩ := hpm
        refine ⟨rfl, rfl, rfl, ?_⟩
        rw [hp1] at hsp
        obtain ⟨dom, hdom⟩ := mem_signedPermits hsp
        exact (hl1 p rfl dom _ _ hdom).1


/-! ## The batch of a wallet run -/

theorem signedPermits_nil_of_emits {d : List Event} {P : Event → Bool}
    (h : ∀ e ∈ d, P e = true) (hP : ∀ e, P e = true → Event.inBuild e = false) :
    signedPermits d = [] :=
  signedPermits_nil_of_not_inBuild (fun e he => hP e (h e he))

theorem payments_nil_of_emits {d : List Event} {P : Event → Bool}
    (h : ∀ e ∈ d, P e = true) (hP : ∀ e, P e = true → Event.inFire e = false) :
    payments d = [] :=
  payments_nil_of_not_inFire (fun e he => hP e (h e he))

/-- A wallet run that reaches the submission phase (the line `Sending
permits...` is written) returns, has built exactly `MINT_COUNT` permits, and has
sent exactly `MINT_COUNT` drip requests with a payment, whose payloads are the
permits built, in the same order. -/
theorem run_reaching_submission (env : Env) (fuel : Nat) (pk : JsString) (s : State)
    (h : Event.log Line.sending ∈ (runForWallet env fuel pk s).trace) :
    (runForWallet env fuel pk s).returned = true ∧
    (signedPermits (runForWallet env fuel pk s).trace).length = env.mintCount ∧
    (payments (runForWallet env fuel pk s).trace).length = env.mintCount ∧
    (payments (runForWallet env fuel pk s).trace).map Payment.payload =
      signedPermits (runForWallet env fuel pk s).trace := by
  have hl := login_emits env fuel pk s
  rcases run_anatomy env fuel pk s with
    ⟨_, ht, _⟩ | ⟨wallet, jwt, _, _, ht, _⟩ | ⟨wallet, jwt, s2, h1, hs2, hrest⟩
  · rw [ht] at h
    have := hl _ h
    simp [Event.inLogin] at this
  · have ha := approveUnlimited_emits env wallet.address (login env fuel pk s).state
    rw [ht] at h
    rcases List.mem_append.mp h with h | h
    · have := hl _ h
      simp [Event.inLogin] at this
    · have := ha _ h
      simp [Event.inApprove] at this
  · have ha := approveUnlimited_emits env wallet.address (login env fuel pk s).state
    have hf := fetchRequirements_emits env jwt s2
    rcases hrest with ⟨_, ht, _⟩ | ⟨pay, h3, ht, he⟩
    · rw [ht] at h
      rcases List.mem_append.mp h with h | h
      · rcases List.mem_append.mp h with h | h
        · have := hl _ h
          simp [Event.inLogin] at this
        · have := ha _ h
          simp [Event.inApprove] at this
      · have := hf _ h
        simp [Event.inFetch] at this
    · have hs1 := signedPermits_nil_of_emits hl inLogin_not_inBuild
      have hs2 := signedPermits_nil_of_emits ha inApprove_not_inBuild
      have hs3 := signedPermits_nil_of_emits hf inFetch_not_inBuild
      have hp1 := payments_nil_of_emits hl inLogin_not_inFire
      have hp2 := payments_nil_of_emits ha inApprove_not_inFire
      have hp3 := payments_nil_of_emits hf inFetch_not_inFire
      have hmem : Event.log Line.sending ∈
          ((buildPermits env wallet pay >>= fun permits =>
            firePermits env jwt pay permits) (fetchRequirements env jwt s2).state).trace := by
        rw [ht] at h
        rcases List.mem_append.mp h with h | h
        · rcases List.mem_append.mp h with h | h
          · rcases List.mem_append.mp h with h | h
            · have := hl _ h
              simp [Event.inLogin] at this
            · have := ha _ h
              simp [Event.inApprove] at this
          · have := hf _ h
            simp [Event.inFetch] at this
        · exact h
      obtain ⟨m1, m2, m3⟩ := (mint_spec env wallet jwt pay _).1 hmem
      have hlen := congrArg List.length m3
      rw [List.length_map, m2] at hlen
      refine ⟨?_, ?_, ?_, ?_⟩
      · simp [Res.returned, he, m1]
      · rw [ht]
        simp only [signedPermits_append, hs1, hs2, hs3, List.nil_append]
        exact m2
      · rw [ht]
        simp only [payments_append, hp1, hp2, hp3, List.nil_append]
        exact hlen
      · rw [ht]
        simp only [payments_append, signedPermits_append, hs1, hs2, hs3, hp1, hp2, hp3,
          List.nil_append]
        exact m3


theorem mint_emits (env : Env) (wallet : Wallet) (jwt : Option String)
    (pay : Option PaymentRequirements) :
    Emits (fun e => Event.inBuild e || Event.inFire e)
      (buildPermits env wallet pay >>= fun permits => firePermits env jwt pay permits) :=
  emits_bind
    (emits_mono (buildPermits_emits env wallet pay) (fun e he => by simp [he]))
    (fun permits =>
      emits_mono (firePermits_emits env jwt pay permits) (fun e he => by simp [he]))

/-- The reply to the first drip request decides the requirement: when the
trace of the section shows a reply 402 that carries a requirement, the section
gives that requirement. -/
theorem fetchRequirements_of_reply (env : Env) (jwt : Option String) (s : State)
    (j : Option String) (rcp : String) (resp : Response) (pay : PaymentRequirements)
    (hmem : Event.http (Request.drip j rcp none) (some resp) ∈
      (fetchRequirements env jwt s).trace)
    (h402 : resp.status = 402) (hpay : resp.data.paymentRequirements = some pay) :
    (fetchRequirements env jwt s).ending = Ending.ok (Flow.next (some pay)) := by
  rw [fetchRequirements_eq] at hmem ⊢
  cases h : s.http 0 with
  | none => simp [h] at hmem
  | some r =>
    simp only [h] at hmem ⊢
    by_cases h2 : 200 ≤ r.status ∧ r.status < 300
    · simp only [h2, and_self, if_true, List.mem_singleton, Event.http.injEq,
        Option.some.injEq] at hmem
      obtain ⟨_, rfl⟩ := hmem
      omega
    · by_cases h3 : r.status = 402
      · cases h4 : r.data.paymentRequirements with
        | none =>
          simp [h2, h3, h4] at hmem
          obtain ⟨_, rfl⟩ := hmem
          rw [h4] at hpay
          exact absurd hpay (by simp)
        | some q =>
          simp [h2, h3, h4] at hmem
          obtain ⟨_, rfl⟩ := hmem
          rw [h4] at hpay
          simp only [Option.some.injEq] at hpay
          subst hpay
          simp [h3, h4]
      · simp [h2, h3] at hmem
        obtain ⟨_, rfl⟩ := hmem
        exact absurd h402 h3

/-- Claim C3.  In every wallet run whose discovery request (the drip request
without a payment) is answered with status 402 and the requirement
`{amount: A, network: N, relayerContract: R}`: every call of `_signTypedData`
signs the value `A` under the verifying contract `R`, so every permit built has
`authorization.value = A`; and every drip request that carries a payment
carries the network `N`, the relayer `R`, and a permit whose value is `A`. -/
theorem C3_requirement_kept_across_batch (env : Env) (fuel : Nat) (pk : JsString) (s : State)
    (jwt : Option String) (rcp : String) (resp : Response) (A N R : String)
    (hreq : Event.http (Request.drip jwt rcp none) (some resp) ∈
      (runForWallet env fuel pk s).trace)
    (h402 : resp.status = 402)
    (hpay : resp.data.paymentRequirements =
      some { amount := A, network := N, relayerContract := R }) :
    (∀ dom msg sig, Event.signTypedData dom msg sig ∈ (runForWallet env fuel pk s).trace →
      msg.value = A ∧ dom.verifyingContract = R) ∧
    (∀ p ∈ signedPermits (runForWallet env fuel pk s).trace, p.authorization.value = A) ∧
    (∀ pm ∈ payments (runForWallet env fuel pk s).trace,
      pm.network = N ∧ pm.relayerContract = R ∧ pm.payload.authorization.value = A) := by
  have hl := login_emits env fuel pk s
  have key : (∀ dom msg sig, Event.signTypedData dom msg sig ∈
        (runForWallet env fuel pk s).trace → msg.value = A ∧ dom.verifyingContract = R) ∧
      (∀ pm ∈ payments (runForWallet env fuel pk s).trace,
        pm.network = N ∧ pm.relayerContract = R ∧ pm.payload.authorization.value = A) := by
    rcases run_anatomy env fuel pk s with
      ⟨_, ht, _⟩ | ⟨wallet, jwt2, _, _, ht, _⟩ | ⟨wallet, jwt2, s2, h1, hs2, hrest⟩
    · rw [ht] at hreq
      have := hl _ hreq
      simp [Event.inLogin] at this
    · have ha := approveUnlimited_emits env wallet.address (login env fuel pk s).state
      rw [ht] at hreq
      rcases List.mem_append.mp hreq with h | h
      · have := hl _ h
        simp [Event.inLogin] at this
      · have := ha _ h
        simp [Event.inApprove] at this
    · have ha := approveUnlimited_emits env wallet.address (login env fuel pk s).state
      have hf := fetchRequirements_emits env jwt2 s2
      have hm := fun pay => mint_emits env wallet jwt2 pay (fetchRequirements env jwt2 s2).state
      rcases hrest with ⟨hne, ht, _⟩ | ⟨pay, h3, ht, he⟩
      · exfalso
        rw [ht] at hreq
        rcases List.mem_append.mp hreq with h | h
        · rcases List.mem_append.mp h with h | h
          · have := hl _ h
            simp [Event.inLogin] at this
          · have := ha _ h
            simp [Event.inApprove] at this
        · exact hne _ (fetchRequirements_of_reply env jwt2 s2 jwt rcp resp _ h h402 hpay)
      · have hin : Event.http (Request.drip jwt rcp none) (some resp) ∈
            (fetchRequirements env jwt2 s2).trace := by
          rw [ht] at hreq
          rcases List.mem_append.mp hreq with h | h
          · rcases List.mem_append.mp h with h | h
            · rcases List.mem_append.mp h with h | h
              · have := hl _ h
                simp [Event.inLogin] at this
              · have := ha _ h
                simp [Event.inApprove] at this
            · exact h
          · have := hm pay _ h
            simp [Event.inBuild, Event.inFire] at this
        have h3b := fetchRequirements_of_reply env jwt2 s2 jwt rcp resp _ hin h402 hpay
        rw [h3] at h3b
        simp only [Ending.ok.injEq, Flow.next.injEq] at h3b
        obtain ⟨m1, m2⟩ := (mint_spec env wallet jwt2 pay
          (fetchRequirements env jwt2 s2).state).2 _ h3b
        have hp1 := payments_nil_of_emits hl inLogin_not_inFire
        have hp2 := payments_nil_of_emits ha inApprove_not_inFire
        have hp3 := payments_nil_of_emits hf inFetch_not_inFire
        refine ⟨?_, ?_⟩
        · intro dom msg sig hmem
          rw [ht] at hmem
          rcases List.mem_append.mp hmem with h | h
          · rcases List.mem_append.mp h with h | h
            · rcases List.mem_append.mp h with h | h
              · have := hl _ h
                simp [Event.inLogin] at this
              · have := ha _ h
                simp [Event.inApprove] at this
            · have := hf _ h
              simp [Event.inFetch] at this
          · exact m1 dom msg sig h
        · intro pm hpm
          rw [ht] at hpm
          simp only [payments_append, hp1, hp2, hp3, List.nil_append] at hpm
          obtain ⟨_, a, b, c⟩ := m2 pm hpm
          exact ⟨a, b, c⟩
  refine ⟨key.1, ?_, key.2⟩
  intro p hp
  obtain ⟨dom, hdom⟩ := mem_signedPermits hp
  exact (key.1 dom _ _ hdom).1


/-! ## The approval step -/

/-- A piece that yields a `Flow` either goes on, or has written only events
that satisfy `P`. -/
theorem bind_next_or_quiet {α β : Type} {P : Event → Bool} {m : M α} {f : α → M (Flow β)}
    (hm : Emits P m)
    (hf : ∀ a s, (∃ w, (f a s).ending = Ending.ok (Flow.next w)) ∨
      ∀ e ∈ (f a s).trace, P e = true) (s : State) :
    (∃ w, ((m >>= f) s).ending = Ending.ok (Flow.next w)) ∨
      ∀ e ∈ ((m >>= f) s).trace, P e = true := by
  cases h : (m s).ending with
  | ok a =>
    rw [bind_ok h]
    rcases hf a (m s).state with ⟨w, hw⟩ | hq
    · exact Or.inl ⟨w, hw⟩
    · right
      intro e he
      rcases List.mem_append.mp he with h1 | h2
      · exact hm s e h1
      · exact hq e h2
  | throw err =>
    rw [bind_throw h]
    exact Or.inr (hm s)
  | pending =>
    rw [bind_pending h]
    exact Or.inr (hm s)

/-- The section LOGIN writes the line `Logged in:` only when it goes on to the
next section. -/
theorem login_next_or_quiet (env : Env) (fuel : Nat) (pk : JsString) (s : State) :
    (∃ w, (login env fuel pk s).ending = Ending.ok (Flow.next w)) ∨
      ∀ e ∈ (login env fuel pk s).trace, Event.inAuth e = true := by
  unfold login
  refine bind_next_or_quiet (emits_log rfl) (fun _ s => ?_) s
  refine bind_next_or_quiet (emits_log rfl) (fun _ s => ?_) s
  refine bind_next_or_quiet (emits_log rfl) (fun _ s => ?_) s
  refine bind_next_or_quiet (emits_silent _ (fun s => ?_)) (fun wallet s => ?_) s
  · unfold newWallet
    cases s.walletOf pk <;> rfl
  refine bind_next_or_quiet (solveTurnstile_emits _ _) (fun ts s => ?_) s
  split
  · right
    intro e he
    simp [pure_apply] at he
  · refine bind_next_or_quiet ?_ (fun x s => ?_) s
    · unfold getChallenge
      refine emits_bind (emits_silent _ (fun s => rfl)) (fun lid => ?_)
      exact emits_bind (emits_axios (fun _ => rfl)) (fun _ => emits_pure _ _)
    · refine bind_next_or_quiet (signMessage_emits _) (fun signed s => ?_) s
      refine bind_next_or_quiet ?_ (fun verify s => ?_) s
      · unfold verifyChallenge
        exact emits_bind (emits_axios (fun _ => rfl)) (fun _ => emits_pure _ _)
      · left
        exact ⟨_, rfl⟩

/-- The approval calls of a trace. -/
theorem approveUnlimited_after_failed_read (env : Env) (WALLET tok : String) (s : State)
    (ht : env.TOKEN = some tok) (h : s.readOk 0 = false) :
    (checkAllowance env WALLET s).value = some 0 ∧
    Event.approveCall env.RELAYER MaxUint256 60000 (s.approveTx 0) ∈
      (approveUnlimited env WALLET s).trace := by
  refine ⟨by simp [checkAllowance_eq env WALLET tok s ht, h, Res.value], ?_⟩
  rw [approveUnlimited_eq]
  unfold M.bind
  rw [checkAllowance_eq env WALLET tok s ht]
  simp only [h, Bool.false_eq_true, if_false, gt_iff_lt, lt_self_iff_false]
  rw [approveBlock_eq env WALLET tok _ ht]
  simp only
  cases h1 : s.approveTx 0 with
  | none => simp
  | some hash => cases h2 : s.receipt 0 <;> simp

/-- Claim C8, as amended.  In a configuration where `TOKEN` is set:
`approveUnlimited` returns normally from every state, whatever the allowance
read, the approve submission and its confirmation do.  When the allowance read
fails, `checkAllowance` gives zero and an `approve` of `MaxUint256 = 2^256 - 1`
for the relayer is sent with gas limit 60000.  And in every wallet run that has
logged in, the run goes through `approveUnlimited` and then sends the discovery
request (the drip request without a payment): the trace is that of the login,
then that of `approveUnlimited`, then the discovery request, whatever the
approval events are. -/
theorem C8_approval_never_aborts (env : Env) (fuel : Nat) (pk : JsString)
    (WALLET tok : String) (s : State) (hTOKEN : env.TOKEN = some tok) :
    (approveUnlimited env WALLET s).returned = true ∧
    MaxUint256 = 2 ^ 256 - 1 ∧
    (s.readOk 0 = false →
      (checkAllowance env WALLET s).value = some 0 ∧
      Event.approveCall env.RELAYER MaxUint256 60000 (s.approveTx 0) ∈
        (approveUnlimited env WALLET s).trace) ∧
    (Event.log Line.loggedIn ∈ (runForWallet env fuel pk s).trace →
      ∃ (wallet : Wallet) (jwt : Option String) (reply : Option Response) (rest : List Event),
        (∀ e ∈ (login env fuel pk s).trace, Event.inLogin e = true) ∧
        (∀ e ∈ (approveUnlimited env wallet.address (login env fuel pk s).state).trace,
          Event.inApprove e = true) ∧
        (runForWallet env fuel pk s).trace =
          (login env fuel pk s).trace ++
          (approveUnlimited env wallet.address (login env fuel pk s).state).trace ++
          Event.http (Request.drip jwt env.RECIPIENT none) reply :: rest) := by
  refine ⟨approveUnlimited_returns env WALLET tok s hTOKEN, rfl,
    approveUnlimited_after_failed_read env WALLET tok s hTOKEN, ?_⟩
  intro hlog
  have hl := login_emits env fuel pk s
  have hfirst : ∀ jwt s2, ∃ reply rest, (fetchRequirements env jwt s2).trace =
      Event.http (Request.drip jwt env.RECIPIENT none) reply :: rest := by
    intro jwt s2
    rw [fetchRequirements_eq]
    cases h : s2.http 0 with
    | none => exact ⟨_, _, rfl⟩
    | some r =>
      simp only
      split
      · exact ⟨_, _, rfl⟩
      · split
        · cases h4 : r.data.paymentRequirements <;> exact ⟨_, _, rfl⟩
        · exact ⟨_, _, rfl⟩
  rcases run_anatomy env fuel pk s with
    ⟨hne, ht, _⟩ | ⟨wallet, jwt, _, hnr, _⟩ | ⟨wallet, jwt, s2, h1, hs2, hrest⟩
  · exfalso
    rcases login_next_or_quiet env fuel pk s with ⟨w, hw⟩ | hq
    · exact hne w hw
    · rw [ht] at hlog
      have := hq _ hlog
      simp [Event.inAuth] at this
  · exfalso
    rw [approveUnlimited_returns env wallet.address tok _ hTOKEN] at hnr
    exact absurd hnr (by simp)
  · have ha := approveUnlimited_emits env wallet.address (login env fuel pk s).state
    obtain ⟨reply, rest, hfr⟩ := hfirst jwt s2
    rcases hrest with ⟨_, ht, _⟩ | ⟨pay, h3, ht, he⟩
    · exact ⟨wallet, jwt, reply, rest, hl, ha, by rw [ht, hfr]⟩
    · exact ⟨wallet, jwt, reply,
        rest ++ ((buildPermits env wallet pay >>= fun permits =>
          firePermits env jwt pay permits) (fetchRequirements env jwt s2).state).trace,
        hl, ha, by rw [ht, hfr]; simp⟩


/-- What `approveUnlimited` does when `TOKEN` is set, the read succeeds and
the allowance is positive. -/
theorem approveUnlimited_of_positive (env : Env) (WALLET tok : String) (s : State)
    (ht : env.TOKEN = some tok)
    (hread : s.readOk 0 = true) (hpos : 0 < s.allowance tok WALLET env.RELAYER) :
    approveUnlimited env WALLET s =
      ⟨[Event.allowanceCall WALLET env.RELAYER (some (s.allowance tok WALLET env.RELAYER)),
          Event.log Line.alreadyApproved],
        { s with readOk := fun i => s.readOk (i + 1) }, Ending.ok ()⟩ := by
  rw [approveUnlimited_eq]
  unfold M.bind
  rw [checkAllowance_eq env WALLET tok s ht]
  simp [hread, hpos, log, emit]

/-- Claim C6.  On a wallet whose allowance read takes place (`TOKEN` is set, so
the token contract is built), succeeds and returns a value greater than zero,
`approveUnlimited` returns after the read and the line `Already approved,
skipping approve`: it sends no `approve`.  Called a second time right after
(the read succeeding again), it does the same: over the two calls no `approve`
transaction is sent, no transaction is waited for, and the allowances held by
the token contract are the ones before the first call. -/
theorem C6_positive_allowance_skips_approve (env : Env) (WALLET tok : String) (s : State)
    (hTOKEN : env.TOKEN = some tok)
    (hread : s.readOk 0 = true) (hread2 : s.readOk 1 = true)
    (hpos : 0 < s.allowance tok WALLET env.RELAYER) :
    (approveUnlimited env WALLET s).returned = true ∧
    (approveUnlimited env WALLET s).trace =
      [Event.allowanceCall WALLET env.RELAYER (some (s.allowance tok WALLET env.RELAYER)),
        Event.log Line.alreadyApproved] ∧
    (approveUnlimited env WALLET (approveUnlimited env WALLET s).state).returned = true ∧
    (approveUnlimited env WALLET (approveUnlimited env WALLET s).state).trace =
      [Event.allowanceCall WALLET env.RELAYER (some (s.allowance tok WALLET env.RELAYER)),
        Event.log Line.alreadyApproved] ∧
    (∀ e ∈ (approveUnlimited env WALLET s).trace ++
        (approveUnlimited env WALLET (approveUnlimited env WALLET s).state).trace,
      (∀ sp v g h, e ≠ Event.approveCall sp v g h) ∧ (∀ h c, e ≠ Event.waitCall h c)) ∧
    (approveUnlimited env WALLET (approveUnlimited env WALLET s).state).state.allowance =
      s.allowance := by
  have e1 := approveUnlimited_of_positive env WALLET tok s hTOKEN hread hpos
  have e2 := approveUnlimited_of_positive env WALLET tok (approveUnlimited env WALLET s).state
    hTOKEN (by rw [e1]; exact hread2) (by rw [e1]; exact hpos)
  rw [e1] at e2 ⊢
  simp only at e2
  rw [e2]
  refine ⟨rfl, rfl, rfl, rfl, ?_, rfl⟩
  intro e he
  simp only [List.mem_append, List.mem_cons, List.mem_singleton, List.not_mem_nil,
    or_false, or_self] at he
  rcases he with rfl | rfl <;> simp

/-! ## The captcha solver -/

theorem polls_append (d1 d2 : List Event) : polls (d1 ++ d2) = polls d1 ++ polls d2 := by
  unfold polls
  exact List.filterMap_append _ _ _

/-- One round of the polling loop, on a successful response `r`. -/
theorem pollLoop_succ (env : Env) (jobId : Option String) (fuel : Nat) (s : State)
    (r : Response) (h : s.http 0 = some r) (hok : 200 ≤ r.status ∧ r.status < 300) :
    pollLoop env jobId (fuel + 1) s =
      if r.data.status = some 1 then
        ⟨[Event.http (Request.captchaRes env.CAPTCHA_KEY jobId) (some r),
            Event.log Line.captchaSolved],
          { s with http := fun i => s.http (i + 1) }, Ending.ok r.data.request⟩
      else
        ⟨[Event.http (Request.captchaRes env.CAPTCHA_KEY jobId) (some r), Event.log Line.dot] ++
            (pollLoop env jobId fuel { s with http := fun i => s.http (i + 1) }).trace,
          (pollLoop env jobId fuel { s with http := fun i => s.http (i + 1) }).state,
          (pollLoop env jobId fuel { s with http := fun i => s.http (i + 1) }).ending⟩ := by
  conv_lhs => unfold pollLoop
  simp only [bind_apply, M.bind, axios, h, hok, and_self, if_true]
  by_cases hs : r.data.status = some 1
  · simp [hs, log, emit, pure_apply, bind_apply, M.bind]
  · simp [hs, log, emit, bind_apply, M.bind]

/-- The polling loop on `k` successful responses that do not report status 1
followed by one that does: with fuel for more than `k` rounds it polls `k + 1`
times and returns the field `request` of the last response. -/
theorem pollLoop_solved (env : Env) (jobId : Option String) (k : Nat) :
    ∀ (fuel : Nat) (s : State) (rk : Response),
      (∀ i, i < k → ∃ r, s.http i = some r ∧ (200 ≤ r.status ∧ r.status < 300) ∧
        r.data.status ≠ some 1) →
      s.http k = some rk → (200 ≤ rk.status ∧ rk.status < 300) → rk.data.status = some 1 →
      k < fuel →
      (pollLoop env jobId fuel s).ending = Ending.ok rk.data.request ∧
      polls (pollLoop env jobId fuel s).trace = (List.range (k + 1)).map s.http := by
  induction k with
  | zero =>
    intro fuel s rk _ hk hok hs hf
    obtain ⟨n, rfl⟩ : ∃ n, fuel = n + 1 := ⟨fuel - 1, by omega⟩
    rw [pollLoop_succ env jobId n s rk hk hok]
    simp [hs, polls, hk, List.range_succ]
  | succ k ih =>
    intro fuel s rk hpend hk hok hs hf
    obtain ⟨n, rfl⟩ : ∃ n, fuel = n + 1 := ⟨fuel - 1, by omega⟩
    obtain ⟨r0, h0, h0ok, h0s⟩ := hpend 0 (by omega)
    rw [pollLoop_succ env jobId n s r0 h0 h0ok]
    simp only [h0s, if_false]
    obtain ⟨e1, e2⟩ := ih n { s with http := fun i => s.http (i + 1) } rk
      (fun i hi => hpend (i + 1) (by omega)) hk hok hs (by omega)
    refine ⟨e1, ?_⟩
    rw [polls_append, e2]
    simp only [polls, List.filterMap_cons, List.filterMap_nil, ← h0]
    rw [List.range_succ_eq_map (k + 1)]
    simp [Function.comp_def]

/-- Whatever the replies are, the polling loop returns only the field `request`
of a response that reports status 1, and that response is the last one polled. -/
theorem pollLoop_returns_solved (env : Env) (jobId : Option String) (fuel : Nat) :
    ∀ (s : State) (v : Option String), (pollLoop env jobId fuel s).ending = Ending.ok v →
      ∃ r, (polls (pollLoop env jobId fuel s).trace).getLast? = some (some r) ∧
        r.data.status = some 1 ∧ v = r.data.request := by
  induction fuel with
  | zero =>
    intro s v h
    simp [pollLoop] at h
  | succ n ih =>
    intro s v h
    cases h0 : s.http 0 with
    | none =>
      unfold pollLoop at h
      simp [bind_apply, M.bind, axios, h0] at h
    | some r =>
      by_cases hok : 200 ≤ r.status ∧ r.status < 300
      · rw [pollLoop_succ env jobId n s r h0 hok] at h ⊢
        by_cases hs : r.data.status = some 1
        · simp only [hs, if_true, Ending.ok.injEq] at h ⊢
          exact ⟨r, by simp [polls], hs, h.symm⟩
        · simp only [hs, if_false] at h ⊢
          obtain ⟨r2, e1, e2, e3⟩ := ih _ v h
          refine ⟨r2, ?_, e2, e3⟩
          rw [polls_append]
          rw [List.getLast?_append_of_ne_nil]
          · exact e1
          · intro hnil
            rw [hnil] at e1
            simp at e1
      · unfold pollLoop at h
        simp [bind_apply, M.bind, axios, h0, hok] at h

/-- What `solveTurnstile` does, case by case on the reply to the submission. -/
theorem solveTurnstile_eq (env : Env) (fuel : Nat) (s : State) :
    solveTurnstile env fuel s =
      match s.http 0 with
      | none =>
        ⟨[Event.log Line.requestingCaptcha,
            Event.http (Request.captchaIn env.CAPTCHA_KEY env.TURNSTILE_SITEKEY) none],
          { s with http := fun i => s.http (i + 1) }, Ending.throw (JsError.axios none)⟩
      | some r =>
        if 200 ≤ r.status ∧ r.status < 300 then
          if r.data.status = some 1 then
            ⟨[Event.log Line.requestingCaptcha,
                Event.http (Request.captchaIn env.CAPTCHA_KEY env.TURNSTILE_SITEKEY) (some r),
                Event.log Line.jobCreated] ++
                (pollLoop env r.data.request fuel
                  { s with http := fun i => s.http (i + 1) }).trace,
              (pollLoop env r.data.request fuel { s with http := fun i => s.http (i + 1) }).state,
              (pollLoop env r.data.request fuel
                { s with http := fun i => s.http (i + 1) }).ending⟩
          else
            ⟨[Event.log Line.requestingCaptcha,
                Event.http (Request.captchaIn env.CAPTCHA_KEY env.TURNSTILE_SITEKEY) (some r),
                Event.log Line.sctgError],
              { s with http := fun i => s.http (i + 1) }, Ending.ok none⟩
        else
          ⟨[Event.log Line.requestingCaptcha,
              Event.http (Request.captchaIn env.CAPTCHA_KEY env.TURNSTILE_SITEKEY) (some r)],
            { s with http := fun i => s.http (i + 1) },
            Ending.throw (JsError.axios (some r))⟩ := by
  unfold solveTurnstile
  simp only [bind_apply, M.bind, axios, log, emit]
  cases h : s.http 0 with
  | none => simp
  | some r =>
    by_cases hok : 200 ≤ r.status ∧ r.status < 300
    · by_cases hs : r.data.status = some 1
      · simp [hok, hs, bind_apply, M.bind, emit]
      · simp [hok, hs, bind_apply, M.bind, emit, pure_apply]
    · simp [hok]

/-- Claim C5.  Let the submission to the solver be accepted (a successful
response with status 1), let the first `k` poll responses be successful
responses with a status other than 1 and let response `k + 1` be one with
status 1.  Then, with fuel for more than `k` rounds, `solveTurnstile` returns
the field `request` of response `k + 1` after exactly `k + 1` polls, which got
the first `k + 1` poll responses in order.  And whatever the replies are, when
`solveTurnstile` returns, either it made no poll and returns `null`, or the
last response it polled has status 1 and the value returned is the field
`request` of that response: the field of a response with another status is
never returned. -/
theorem C5_token_only_on_status_one (env : Env) (fuel : Nat) (s : State) (k : Nat)
    (r0 rk : Response)
    (h0 : s.http 0 = some r0) (h0ok : 200 ≤ r0.status ∧ r0.status < 300)
    (h0s : r0.data.status = some 1)
    (hpend : ∀ i, i < k → ∃ r, s.http (i + 1) = some r ∧
      (200 ≤ r.status ∧ r.status < 300) ∧ r.data.status ≠ some 1)
    (hk : s.http (k + 1) = some rk) (hkok : 200 ≤ rk.status ∧ rk.status < 300)
    (hks : rk.data.status = some 1) (hfuel : k < fuel) :
    (solveTurnstile env fuel s).value = some rk.data.request ∧
    (polls (solveTurnstile env fuel s).trace).length = k + 1 ∧
    polls (solveTurnstile env fuel s).trace =
      (List.range (k + 1)).map (fun i => s.http (i + 1)) ∧
    (∀ (fuel2 : Nat) (s2 : State) (v : Option String),
      (solveTurnstile env fuel2 s2).value = some v →
        (polls (solveTurnstile env fuel2 s2).trace = [] ∧ v = none) ∨
        (∃ r, (polls (solveTurnstile env fuel2 s2).trace).getLast? = some (some r) ∧
          r.data.status = some 1 ∧ v = r.data.request)) := by
  have hgen : ∀ (fuel2 : Nat) (s2 : State) (v : Option String),
      (solveTurnstile env fuel2 s2).value = some v →
        (polls (solveTurnstile env fuel2 s2).trace = [] ∧ v = none) ∨
        (∃ r, (polls (solveTurnstile env fuel2 s2).trace).getLast? = some (some r) ∧
          r.data.status = some 1 ∧ v = r.data.request) := by
    intro fuel2 s2 v hv
    rw [solveTurnstile_eq] at hv ⊢
    cases h : s2.http 0 with
    | none => simp [h, Res.value] at hv
    | some r =>
      simp only [h] at hv ⊢
      by_cases hok : 200 ≤ r.status ∧ r.status < 300
      · by_cases hs : r.data.status = some 1
        · simp only [hok, hs, and_self, if_true, Res.value] at hv ⊢
          right
          cases he : (pollLoop env r.data.request fuel2
              { s2 with http := fun i => s2.http (i + 1) }).ending with
          | ok w =>
            rw [he] at hv
            simp only [Option.some.injEq] at hv
            subst hv
            obtain ⟨r2, e1, e2, e3⟩ := pollLoop_returns_solved env r.data.request fuel2 _ w he
            refine ⟨r2, ?_, e2, e3⟩
            rw [polls_append]
            simpa [polls] using e1
          | throw e =>
            rw [he] at hv
            simp at hv
          | pending =>
            rw [he] at hv
            simp at hv
        · simp only [hok, hs, and_self, if_true, if_false, Res.value,
            Option.some.injEq] at hv ⊢
          left
          exact ⟨by simp [polls], hv.symm⟩
      · simp [hok, Res.value] at hv
  obtain ⟨e1, e2⟩ := pollLoop_solved env r0.data.request k fuel
    { s with http := fun i => s.http (i + 1) } rk hpend hk hkok hks hfuel
  have htr : polls (solveTurnstile env fuel s).trace =
      (List.range (k + 1)).map (fun i => s.http (i + 1)) := by
    rw [solveTurnstile_eq]
    simp only [h0, h0ok, h0s, and_self, if_true, polls_append, e2]
    simp [polls]
  refine ⟨?_, ?_, htr, hgen⟩
  · rw [solveTurnstile_eq]
    simp [h0, h0ok, h0s, Res.value, e1]
  · rw [htr]
    simp


/-! ## The main loop -/

theorem inLogin_not_mark (e : Event) (h : Event.inLogin e = true) : Event.isRunMark e = false := by
  cases e <;> first | rfl | simp [Event.inLogin] at h

theorem inApprove_not_mark (e : Event) (h : Event.inApprove e = true) :
    Event.isRunMark e = false := by
  cases e <;> first | rfl | simp [Event.inApprove] at h

theorem inFetch_not_mark (e : Event) (h : Event.inFetch e = true) :
    Event.isRunMark e = false := by
  cases e <;> first | rfl | simp [Event.inFetch] at h

theorem inBuild_not_mark (e : Event) (h : Event.inBuild e = true) :
    Event.isRunMark e = false := by
  cases e <;> first | rfl | simp [Event.inBuild] at h

theorem inFire_not_mark (e : Event) (h : Event.inFire e = true) :
    Event.isRunMark e = false := by
  cases e <;> first | rfl | simp [Event.inFire] at h

/-- A wallet run writes no mark of the main loop. -/
theorem runForWallet_emits (env : Env) (fuel : Nat) (pk : JsString) :
    Emits (fun e => !Event.isRunMark e) (runForWallet env fuel pk) := by
  rw [runForWallet_eq]
  refine emits_bind (emits_mono (login_emits env fuel pk)
    (fun e he => by simp [inLogin_not_mark e he])) (fun x => ?_)
  cases x with
  | ret => exact emits_pure _ _
  | next w =>
    obtain ⟨wallet, jwt⟩ := w
    refine emits_bind (emits_mono (approveUnlimited_emits env wallet.address)
      (fun e he => by simp [inApprove_not_mark e he])) (fun _ => ?_)
    refine emits_bind (emits_mono (fetchRequirements_emits env jwt)
      (fun e he => by simp [inFetch_not_mark e he])) (fun y => ?_)
    cases y with
    | ret => exact emits_pure _ _
    | next pay =>
      refine emits_bind (emits_mono (buildPermits_emits env wallet pay)
        (fun e he => by simp [inBuild_not_mark e he])) (fun permits => ?_)
      exact emits_mono (firePermits_emits env jwt pay permits)
        (fun e he => by simp [inFire_not_mark e he])

theorem runMarks_append (d1 d2 : List Event) : runMarks (d1 ++ d2) = runMarks d1 ++ runMarks d2 := by
  unfold runMarks
  exact List.filter_append _ _

theorem runMarks_runForWallet (env : Env) (fuel : Nat) (pk : JsString) (s : State) :
    runMarks (runForWallet env fuel pk s).trace = [] := by
  unfold runMarks
  rw [List.filter_eq_nil_iff]
  intro e he
  have := runForWallet_emits env fuel pk s e he
  simpa using this

/-- The order of the wallet runs, for the loop over any list of keys: some
number `j` of runs have started and returned, one after the other and in the
order of the list; the run of the next key, if there is one, has started and
not returned; and the loop returns exactly when `j` is the length of the list. -/
theorem mainLoop_marks (env : Env) (fuel : Nat) (keys : List JsString) :
    ∀ s : State, ∃ j, j ≤ keys.length ∧
      runMarks (mainLoop env fuel keys s).trace =
        completedRuns (keys.take j) ++ ((keys.drop j).take 1).map Event.runStart ∧
      ((mainLoop env fuel keys s).returned = true ↔ j = keys.length) := by
  induction keys with
  | nil =>
    intro s
    exact ⟨0, le_refl _, rfl, by simp [mainLoop, pure_apply, Res.returned]⟩
  | cons k ks ih =>
    intro s
    unfold mainLoop
    have h0 : (emit (Event.runStart k) s).ending = Ending.ok () := rfl
    rw [bind_ok h0]
    have hs0 : (emit (Event.runStart k) s).state = s := rfl
    have ht0 : (emit (Event.runStart k) s).trace = [Event.runStart k] := rfl
    rw [hs0, ht0]
    have hq := runMarks_runForWallet env fuel k s
    cases h1 : (runForWallet env fuel k s).ending with
    | throw e =>
      rw [bind_throw h1]
      refine ⟨0, Nat.zero_le _, ?_, by simp [Res.returned]⟩
      simp only [runMarks_append, hq]
      simp [runMarks, Event.isRunMark, completedRuns]
    | pending =>
      rw [bind_pending h1]
      refine ⟨0, Nat.zero_le _, ?_, by simp [Res.returned]⟩
      simp only [runMarks_append, hq]
      simp [runMarks, Event.isRunMark, completedRuns]
    | ok u =>
      rw [bind_ok h1]
      have h2 : (emit (Event.runEnd k) (runForWallet env fuel k s).state).ending =
          Ending.ok () := rfl
      rw [bind_ok h2]
      obtain ⟨j, hj, hm, hr⟩ := ih (runForWallet env fuel k s).state
      refine ⟨j + 1, by simp [hj], ?_, ?_⟩
      · simp only [runMarks_append, hq]
        have hs2 : (emit (Event.runEnd k) (runForWallet env fuel k s).state).state =
            (runForWallet env fuel k s).state := rfl
        have ht2 : (emit (Event.runEnd k) (runForWallet env fuel k s).state).trace =
            [Event.runEnd k] := rfl
        rw [hs2, ht2, hm]
        simp [runMarks, Event.isRunMark, completedRuns]
      · have hs2 : (emit (Event.runEnd k) (runForWallet env fuel k s).state).state =
            (runForWallet env fuel k s).state := rfl
        rw [hs2]
        simp only [List.length_cons, add_left_inj]
        rw [← hr]
        simp [Res.returned]


theorem startedKeys_runMarks (d : List Event) : startedKeys (runMarks d) = startedKeys d := by
  induction d with
  | nil => rfl
  | cons e rest ih =>
    cases e <;> simp_all [startedKeys, runMarks, Event.isRunMark, List.filter_cons]

theorem startedKeys_append (d1 d2 : List Event) :
    startedKeys (d1 ++ d2) = startedKeys d1 ++ startedKeys d2 := by
  unfold startedKeys
  exact List.filterMap_append _ _ _

theorem startedKeys_completedRuns (ks : List JsString) : startedKeys (completedRuns ks) = ks := by
  induction ks with
  | nil => rfl
  | cons k rest ih =>
    simp only [completedRuns, startedKeys, List.filterMap_cons] at ih ⊢
    rw [ih]

theorem startedKeys_map_runStart (ks : List JsString) :
    startedKeys (ks.map Event.runStart) = ks := by
  induction ks with
  | nil => rfl
  | cons k rest ih =>
    simp only [List.map_cons, startedKeys, List.filterMap_cons] at ih ⊢
    rw [ih]

/-- The main function writes its two lines around the loop. -/
theorem main_marks (env : Env) (fuel : Nat) (text : JsString) (s : State) :
    runMarks (main env fuel text s).trace =
      runMarks (mainLoop env fuel (PK_LIST text) s).trace ∧
    (main env fuel text s).returned = (mainLoop env fuel (PK_LIST text) s).returned := by
  unfold main
  have h0 : (log Line.running s).ending = Ending.ok () := rfl
  rw [bind_ok h0]
  have hs0 : (log Line.running s).state = s := rfl
  have ht0 : (log Line.running s).trace = [Event.log Line.running] := rfl
  rw [hs0, ht0]
  cases h1 : (mainLoop env fuel (PK_LIST text) s).ending with
  | throw e =>
    rw [bind_throw h1]
    simp [runMarks, Event.isRunMark, Res.returned, h1]
  | pending =>
    rw [bind_pending h1]
    simp [runMarks, Event.isRunMark, Res.returned, h1]
  | ok u =>
    rw [bind_ok h1]
    have ht2 : (log Line.done (mainLoop env fuel (PK_LIST text) s).state).trace =
        [Event.log Line.done] := rfl
    have he2 : (log Line.done (mainLoop env fuel (PK_LIST text) s).state).ending =
        Ending.ok () := rfl
    rw [ht2, he2]
    simp [runMarks, Event.isRunMark, Res.returned, h1]

/-- Claim C2, as amended.  For every key file, every configuration and every
behaviour of the external services there is a number `j` of wallet runs that
have started and returned such that: the marks of the main loop are those of
`j` runs, one for each of the first `j` keys of `PK_LIST` in list order, each
run returning before the next starts, followed by the start of the run of key
`j + 1` if there is one; so the keys for which a run starts are the first
`j + 1` keys of `PK_LIST`, none skipped, repeated or reordered; and the main
function returns exactly when `j` is the number of keys, that is when the run
of every key has returned. -/
theorem C2_runs_start_in_list_order (env : Env) (fuel : Nat) (text : JsString) (s : State) :
    ∃ j, j ≤ (PK_LIST text).length ∧
      runMarks (main env fuel text s).trace =
        completedRuns ((PK_LIST text).take j) ++
          (((PK_LIST text).drop j).take 1).map Event.runStart ∧
      startedKeys (main env fuel text s).trace = (PK_LIST text).take (j + 1) ∧
      ((main env fuel text s).returned = true ↔ j = (PK_LIST text).length) := by
  obtain ⟨j, hj, hm, hr⟩ := mainLoop_marks env fuel (PK_LIST text) s
  obtain ⟨m1, m2⟩ := main_marks env fuel text s
  refine ⟨j, hj, by rw [m1, hm], ?_, by rw [m2, hr]⟩
  rw [← startedKeys_runMarks, m1, hm, startedKeys_append, startedKeys_completedRuns,
    startedKeys_map_runStart, List.take_add]

/-- Claim C2 on the sample key file, in a world where both wallet runs go well:
both keys are started, in the order of the file. -/
theorem C2_runs_start_in_list_order_witness :
    startedKeys (main sampleEnv 5 sampleText (worldWith twoHappyRuns)).trace = [key1, key2] ∧
    ∃ j, j ≤ (PK_LIST sampleText).length ∧
      runMarks (main sampleEnv 5 sampleText (worldWith twoHappyRuns)).trace =
        completedRuns ((PK_LIST sampleText).take j) ++
          (((PK_LIST sampleText).drop j).take 1).map Event.runStart ∧
      startedKeys (main sampleEnv 5 sampleText (worldWith twoHappyRuns)).trace =
        (PK_LIST sampleText).take (j + 1) ∧
      ((main sampleEnv 5 sampleText (worldWith twoHappyRuns)).returned = true ↔
        j = (PK_LIST sampleText).length) :=
  ⟨by decide!, C2_runs_start_in_list_order sampleEnv 5 sampleText (worldWith twoHappyRuns)⟩

/-- While every reply is a successful response that does not report status 1,
the polling loop is still polling when the fuel is used up, whatever the fuel. -/
theorem pollLoop_pending (env : Env) (jobId : Option String) (fuel : Nat) :
    ∀ s : State,
      (∀ i, ∃ r, s.http i = some r ∧ (200 ≤ r.status ∧ r.status < 300) ∧
        r.data.status ≠ some 1) →
      (pollLoop env jobId fuel s).ending = Ending.pending := by
  induction fuel with
  | zero =>
    intro s _
    rfl
  | succ n ih =>
    intro s h
    obtain ⟨r, h0, hok, hs⟩ := h 0
    rw [pollLoop_succ env jobId n s r h0 hok]
    simp only [hs, if_false]
    exact ih _ (fun i => h (i + 1))

theorem login_pending (env : Env) (fuel : Nat) (pk : JsString) (s : State) (a : String)
    (hw : s.walletOf pk = some a)
    (h : (solveTurnstile env fuel s).ending = Ending.pending) :
    (login env fuel pk s).ending = Ending.pending := by
  unfold login
  simp only [bind_apply, M.bind, log, emit, newWallet, hw]
  rcases hr : solveTurnstile env fuel s with ⟨d, s1, e⟩
  rw [hr] at h
  simp only at h
  subst h
  rfl

/-- In the world where the solver never reports the job solved, the first
wallet run is still polling whatever the fuel, and only the first key has been
started. -/
theorem main_neverSolved (fuel : Nat) :
    startedKeys (main sampleEnv fuel sampleText (worldWith neverSolved)).trace = [key1] := by
  have hk : PK_LIST sampleText = [key1, key2] := by decide
  have hsolve : (solveTurnstile sampleEnv fuel (worldWith neverSolved)).ending =
      Ending.pending := by
    rw [solveTurnstile_eq]
    have h0 : (worldWith neverSolved).http 0 = ok200 (solverBody 1 "job") := rfl
    simp only [h0, ok200, solverBody]
    simp only [Nat.reduceLeDiff, Nat.reduceLT, and_self, if_true]
    exact pollLoop_pending _ _ _ _ (fun i => ⟨⟨200, solverBody 0 "CAPCHA_NOT_READY"⟩, rfl,
      by decide, by decide⟩)
  have hlogin := login_pending sampleEnv fuel key1 (worldWith neverSolved) "0xWallet" rfl hsolve
  have hrun : (runForWallet sampleEnv fuel key1 (worldWith neverSolved)).ending =
      Ending.pending := by
    rw [runForWallet_eq, bind_pending hlogin]
  obtain ⟨m1, _⟩ := main_marks sampleEnv fuel sampleText (worldWith neverSolved)
  rw [← startedKeys_runMarks, m1, hk]
  unfold mainLoop
  have h0 : (emit (Event.runStart key1) (worldWith neverSolved)).ending = Ending.ok () := rfl
  rw [bind_ok h0]
  have hs0 : (emit (Event.runStart key1) (worldWith neverSolved)).state =
      worldWith neverSolved := rfl
  rw [hs0, bind_pending hrun]
  simp only [runMarks_append, runMarks_runForWallet, List.append_nil]
  rfl

/-- Claim C2 fails as stated.  With the two keys of the sample file and a solver
that accepts the job and never reports it solved, no amount of fuel makes the
main loop start the runs of both keys: the first run never leaves the polling
loop and the second key is never started. -/
theorem C2_counterexample_polling_never_ends :
    ¬ ∃ fuel, startedKeys (main sampleEnv fuel sampleText (worldWith neverSolved)).trace =
      PK_LIST sampleText := by
  rintro ⟨fuel, h⟩
  rw [main_neverSolved fuel] at h
  revert h
  decide

/-! ## Failures that leave the wallet run -/

/-- Claim C1, at the failing input.  The key file holds two keys; the captcha
is solved and the challenge request of the first wallet is rejected with status
403.  The rejection of `axios.post` is caught nowhere: `runForWallet` raises it,
the main function raises it too, and the run of the second key never starts.
The same happens when the verify request is rejected. -/
theorem C1_rejected_challenge_stops_main_loop :
    PK_LIST sampleText = [key1, key2] ∧
    (runForWallet sampleEnv 5 key1 (worldWith challengeRejected)).error =
      some (JsError.axios (some { status := 403, data := Data.empty })) ∧
    (main sampleEnv 5 sampleText (worldWith challengeRejected)).error =
      some (JsError.axios (some { status := 403, data := Data.empty })) ∧
    startedKeys (main sampleEnv 5 sampleText (worldWith challengeRejected)).trace = [key1] ∧
    (main sampleEnv 5 sampleText (worldWith verifyRejected)).error =
      some (JsError.axios (some { status := 401, data := Data.empty })) ∧
    startedKeys (main sampleEnv 5 sampleText (worldWith verifyRejected)).trace = [key1] := by
  refine ⟨by decide!, by decide!, by decide!, by decide!, by decide!, by decide!⟩

/-- Claim C4, at the failing input.  With `MINT_COUNT` at its default 10, the
login goes well and the first drip request is answered with status 200.  The
variable `pay` stays `undefined`, and the first round of the loop that builds
the permits raises a `TypeError` on reading `pay.amount`: no permit is built
and none is submitted, but `runForWallet` raises, the main function raises, and
the run of the second key never starts. -/
theorem C4_free_drip_raises_type_error :
    defaultEnv.mintCount = 10 ∧
    Event.http (Request.drip (some "jwt") "0xRecipient" none)
        (ok200 { Data.empty with nftTransaction := some "0xnft" }) ∈
      (runForWallet defaultEnv 5 key1 (worldWith freeDrip)).trace ∧
    (runForWallet defaultEnv 5 key1 (worldWith freeDrip)).error =
      some (JsError.typeError "Cannot read properties of undefined (reading amount)") ∧
    signedPermits (runForWallet defaultEnv 5 key1 (worldWith freeDrip)).trace = [] ∧
    payments (runForWallet defaultEnv 5 key1 (worldWith freeDrip)).trace = [] ∧
    (main defaultEnv 5 sampleText (worldWith freeDrip)).error =
      some (JsError.typeError "Cannot read properties of undefined (reading amount)") ∧
    startedKeys (main defaultEnv 5 sampleText (worldWith freeDrip)).trace = [key1] := by
  refine ⟨by decide!, by decide!, by decide!, by decide!, by decide!, by decide!, by decide!⟩

/-! ## Counting the submissions -/

/-- The number of times the line `Sending permits...` is written in a trace. -/
theorem count_sending_append (d1 d2 : List Event) :
    (d1 ++ d2).count (Event.log Line.sending) =
      d1.count (Event.log Line.sending) + d2.count (Event.log Line.sending) :=
  List.count_append _ _ _

theorem count_sending_zero {d : List Event} {P : Event → Bool}
    (h : ∀ e ∈ d, P e = true) (hP : P (Event.log Line.sending) = false) :
    d.count (Event.log Line.sending) = 0 := by
  refine List.count_eq_zero.mpr (fun hmem => ?_)
  have := h _ hmem
  rw [hP] at this
  exact absurd this (by simp)

/-- The section FIRE PERMITS writes the line `Sending permits...` once. -/
theorem firePermits_count (env : Env) (jwt : Option String) (pay : Option PaymentRequirements)
    (permits : List SignedPermit) (s : State) :
    (firePermits env jwt pay permits s).trace.count (Event.log Line.sending) = 1 := by
  unfold firePermits
  have h0 : (log Line.sending s).ending = Ending.ok () := rfl
  rw [bind_ok h0]
  obtain ⟨⟨rs, hrs⟩, _⟩ := sendPermits_spec env jwt pay permits (log Line.sending s).state
  rw [bind_ok hrs]
  simp only [count_sending_append]
  rw [count_sending_zero (sendPermits_emits env jwt pay permits _) rfl,
    count_sending_zero (logMints_emits rs _) rfl]
  rfl

/-- In every wallet run the number of drip requests that carry a payment is
`MINT_COUNT` times the number of lines `Sending permits...`, which is 0 or 1. -/
theorem run_payments_count (env : Env) (fuel : Nat) (pk : JsString) (s : State) :
    (payments (runForWallet env fuel pk s).trace).length =
      env.mintCount * (runForWallet env fuel pk s).trace.count (Event.log Line.sending) := by
  have hl := login_emits env fuel pk s
  have hp1 := payments_nil_of_emits hl inLogin_not_inFire
  have hc1 := count_sending_zero hl rfl
  rcases run_anatomy env fuel pk s with
    ⟨_, ht, _⟩ | ⟨wallet, jwt, _, _, ht, _⟩ | ⟨wallet, jwt, s2, h1, hs2, hrest⟩
  · rw [ht, hp1, hc1]
    rfl
  · have ha := approveUnlimited_emits env wallet.address (login env fuel pk s).state
    rw [ht]
    simp only [payments_append, count_sending_append, hp1, hc1,
      payments_nil_of_emits ha inApprove_not_inFire, count_sending_zero ha rfl]
    rfl
  · have ha := approveUnlimited_emits env wallet.address (login env fuel pk s).state
    have hf := fetchRequirements_emits env jwt s2
    have hp2 := payments_nil_of_emits ha inApprove_not_inFire
    have hp3 := payments_nil_of_emits hf inFetch_not_inFire
    have hc2 := count_sending_zero ha rfl
    have hc3 := count_sending_zero hf rfl
    rcases hrest with ⟨_, ht, _⟩ | ⟨pay, h3, ht, he⟩
    · rw [ht]
      simp only [payments_append, count_sending_append, hp1, hp2, hp3, hc1, hc2, hc3]
      rfl
    · rw [ht]
      simp only [payments_append, count_sending_append, hp1, hp2, hp3, hc1, hc2, hc3,
        List.nil_append, Nat.zero_add]
      have hb := buildPermits_emits env wallet pay (fetchRequirements env jwt s2).state
      have hpb := payments_nil_of_emits hb inBuild_not_inFire
      have hcb := count_sending_zero hb rfl
      cases h4 : (buildPermits env wallet pay (fetchRequirements env jwt s2).state).ending with
      | throw e =>
        rw [bind_throw h4]
        simp only [hpb, hcb]
        rfl
      | pending =>
        rw [bind_pending h4]
        simp only [hpb, hcb]
        rfl
      | ok permits =>
        have hmem : Event.log Line.sending ∈
            ((buildPermits env wallet pay >>= fun permits =>
              firePermits env jwt pay permits) (fetchRequirements env jwt s2).state).trace := by
          rw [bind_ok h4]
          refine List.mem_append_right _ ?_
          refine List.count_pos_iff.mp ?_
          rw [firePermits_count]
          exact Nat.one_pos
        obtain ⟨_, m2, m3⟩ := (mint_spec env wallet jwt pay _).1 hmem
        have hlen := congrArg List.length m3
        rw [List.length_map, m2] at hlen
        rw [hlen, bind_ok h4]
        simp [count_sending_append, hcb, firePermits_count]

/-- In the main loop the number of drip requests that carry a payment is
`MINT_COUNT` times the number of wallet runs that reached the submission phase. -/
theorem mainLoop_payments_count (env : Env) (fuel : Nat) (keys : List JsString) :
    ∀ s : State, (payments (mainLoop env fuel keys s).trace).length =
      env.mintCount * (mainLoop env fuel keys s).trace.count (Event.log Line.sending) := by
  induction keys with
  | nil =>
    intro s
    rfl
  | cons k ks ih =>
    intro s
    unfold mainLoop
    have h0 : (emit (Event.runStart k) s).ending = Ending.ok () := rfl
    rw [bind_ok h0]
    have hs0 : (emit (Event.runStart k) s).state = s := rfl
    have ht0 : (emit (Event.runStart k) s).trace = [Event.runStart k] := rfl
    rw [hs0, ht0]
    have hrun := run_payments_count env fuel k s
    have hp0 : payments [Event.runStart k] = [] := rfl
    have hc0 : [Event.runStart k].count (Event.log Line.sending) = 0 := rfl
    cases h1 : (runForWallet env fuel k s).ending with
    | throw e =>
      rw [bind_throw h1]
      simp only [payments_append, count_sending_append, hp0, hc0, List.nil_append,
        Nat.zero_add]
      exact hrun
    | pending =>
      rw [bind_pending h1]
      simp only [payments_append, count_sending_append, hp0, hc0, List.nil_append,
        Nat.zero_add]
      exact hrun
    | ok u =>
      rw [bind_ok h1]
      have h2 : (emit (Event.runEnd k) (runForWallet env fuel k s).state).ending =
          Ending.ok () := rfl
      rw [bind_ok h2]
      have hs2 : (emit (Event.runEnd k) (runForWallet env fuel k s).state).state =
          (runForWallet env fuel k s).state := rfl
      have ht2 : (emit (Event.runEnd k) (runForWallet env fuel k s).state).trace =
          [Event.runEnd k] := rfl
      rw [hs2, ht2]
      have hp2 : payments [Event.runEnd k] = [] := rfl
      have hc2 : [Event.runEnd k].count (Event.log Line.sending) = 0 := rfl
      simp only [payments_append, count_sending_append, hp0, hc0, hp2, hc2, List.nil_append,
        Nat.zero_add, List.length_append, hrun, ih (runForWallet env fuel k s).state]
      ring

theorem main_payments_count (env : Env) (fuel : Nat) (text : JsString) (s : State) :
    (payments (main env fuel text s).trace).length =
      env.mintCount * (main env fuel text s).trace.count (Event.log Line.sending) := by
  unfold main
  have h0 : (log Line.running s).ending = Ending.ok () := rfl
  rw [bind_ok h0]
  have hs0 : (log Line.running s).state = s := rfl
  have ht0 : (log Line.running s).trace = [Event.log Line.running] := rfl
  rw [hs0, ht0]
  have hp0 : payments [Event.log Line.running] = [] := rfl
  have hc0 : [Event.log Line.running].count (Event.log Line.sending) = 0 := by decide
  have hm := mainLoop_payments_count env fuel (PK_LIST text) s
  cases h1 : (mainLoop env fuel (PK_LIST text) s).ending with
  | throw e =>
    rw [bind_throw h1]
    simp only [payments_append, count_sending_append, hp0, hc0, List.nil_append, Nat.zero_add]
    exact hm
  | pending =>
    rw [bind_pending h1]
    simp only [payments_append, count_sending_append, hp0, hc0, List.nil_append, Nat.zero_add]
    exact hm
  | ok u =>
    rw [bind_ok h1]
    have ht2 : (log Line.done (mainLoop env fuel (PK_LIST text) s).state).trace =
        [Event.log Line.done] := rfl
    rw [ht2]
    have hp2 : payments [Event.log Line.done] = [] := rfl
    have hc2 : [Event.log Line.done].count (Event.log Line.sending) = 0 := by decide
    simp only [payments_append, count_sending_append, hp0, hc0, hp2, hc2, List.nil_append,
      Nat.zero_add, List.append_nil, Nat.add_zero]
    exact hm

/-- Claim C7.  In every wallet run that reaches the submission phase (the line
`Sending permits...` is written), whatever the replies to the submissions are:
the run returns; exactly `MINT_COUNT` permits were built; exactly `MINT_COUNT`
drip requests carry a payment; and the payloads of these requests are the
permits built, in the same order, so request `i` carries permit `i` and each
permit is submitted once.  Over the whole main function the number of such
requests is `MINT_COUNT` for each wallet run that reaches the submission phase:
2 runs with `MINT_COUNT=3` give 2 times 3 submissions. -/
theorem C7_one_submission_per_permit (env : Env) (fuel : Nat) :
    (∀ (pk : JsString) (s : State),
      Event.log Line.sending ∈ (runForWallet env fuel pk s).trace →
        (runForWallet env fuel pk s).returned = true ∧
        (signedPermits (runForWallet env fuel pk s).trace).length = env.mintCount ∧
        (payments (runForWallet env fuel pk s).trace).length = env.mintCount ∧
        (payments (runForWallet env fuel pk s).trace).map Payment.payload =
          signedPermits (runForWallet env fuel pk s).trace) ∧
    (∀ (text : JsString) (s : State),
      (payments (main env fuel text s).trace).length =
        env.mintCount * (main env fuel text s).trace.count (Event.log Line.sending)) :=
  ⟨fun pk s h => run_reaching_submission env fuel pk s h,
   fun text s => main_payments_count env fuel text s⟩

/-- Claim C7 on the sample key file with `MINT_COUNT=3`, in a world where both
wallet runs go well: the first run reaches the submission phase, builds 3
permits and submits them in order; the main function runs both keys, 2 runs
reach the submission phase, and 6 drip requests carry a payment. -/
theorem C7_one_submission_per_permit_witness :
    sampleEnv.mintCount = 3 ∧
    startedKeys (main sampleEnv 5 sampleText (worldWith twoHappyRuns)).trace = [key1, key2] ∧
    (main sampleEnv 5 sampleText (worldWith twoHappyRuns)).trace.count
      (Event.log Line.sending) = 2 ∧
    (payments (main sampleEnv 5 sampleText (worldWith twoHappyRuns)).trace).length = 6 ∧
    Event.log Line.sending ∈ (runForWallet sampleEnv 5 key1 (worldWith happyRun)).trace ∧
    ((runForWallet sampleEnv 5 key1 (worldWith happyRun)).returned = true ∧
      (signedPermits (runForWallet sampleEnv 5 key1 (worldWith happyRun)).trace).length =
        sampleEnv.mintCount ∧
      (payments (runForWallet sampleEnv 5 key1 (worldWith happyRun)).trace).length =
        sampleEnv.mintCount ∧
      (payments (runForWallet sampleEnv 5 key1 (worldWith happyRun)).trace).map
          Payment.payload =
        signedPermits (runForWallet sampleEnv 5 key1 (worldWith happyRun)).trace) :=
  ⟨by decide!, by decide!, by decide!, by decide!, by decide!,
   (C7_one_submission_per_permit sampleEnv 5).1 key1 (worldWith happyRun) (by decide!)⟩

/-! ## Failures that end only the wallet run -/

/-- The failures that `runForWallet` handles end the wallet run with a normal
return.  A captcha submission that is answered with a status other than 1 makes
`solveTurnstile` return `null` and the run return; and a discovery request that
gets no response, or a response that is neither a success nor a 402, makes the
run return after the line `Can't get requirement:`. -/
theorem handled_failures_return (env : Env) (fuel : Nat) (pk : JsString) (s : State) :
    (∀ (a : String) (r : Response), s.walletOf pk = some a → s.http 0 = some r →
      200 ≤ r.status ∧ r.status < 300 → r.data.status ≠ some 1 →
      (runForWallet env fuel pk s).returned = true) ∧
    (∀ (jwt : Option String) (rcp : String) (reply : Option Response),
      Event.http (Request.drip jwt rcp none) reply ∈ (runForWallet env fuel pk s).trace →
      (∀ r, reply = some r → ¬ (200 ≤ r.status ∧ r.status < 300) ∧ r.status ≠ 402) →
      (runForWallet env fuel pk s).returned = true) := by
  refine ⟨?_, ?_⟩
  · intro a r hw h0 hok hs
    have hlogin : (login env fuel pk s).ending = Ending.ok Flow.ret := by
      unfold login
      simp only [bind_apply, M.bind, log, emit, newWallet, hw]
      rw [solveTurnstile_eq]
      simp [h0, hok, hs, falsy, pure_apply]
    rw [runForWallet_eq, bind_ok hlogin]
    rfl
  · intro jwt rcp reply hmem hbad
    have hl := login_emits env fuel pk s
    rcases run_anatomy env fuel pk s with
      ⟨_, ht, _⟩ | ⟨wallet, jwt2, _, _, ht, _⟩ | ⟨wallet, jwt2, s2, h1, hs2, hrest⟩
    · rw [ht] at hmem
      have := hl _ hmem
      simp [Event.inLogin] at this
    · have ha := approveUnlimited_emits env wallet.address (login env fuel pk s).state
      rw [ht] at hmem
      rcases List.mem_append.mp hmem with h | h
      · have := hl _ h
        simp [Event.inLogin] at this
      · have := ha _ h
        simp [Event.inApprove] at this
    · have ha := approveUnlimited_emits env wallet.address (login env fuel pk s).state
      have hm := fun pay => mint_emits env wallet jwt2 pay (fetchRequirements env jwt2 s2).state
      have hin : Event.http (Request.drip jwt rcp none) reply ∈
          (fetchRequirements env jwt2 s2).trace := by
        rcases hrest with ⟨_, ht, _⟩ | ⟨pay, h3, ht, he⟩
        · rw [ht] at hmem
          rcases List.mem_append.mp hmem with h | h
          · rcases List.mem_append.mp h with h | h
            · have := hl _ h
              simp [Event.inLogin] at this
            · have := ha _ h
              simp [Event.inApprove] at this
          · exact h
        · rw [ht] at hmem
          rcases List.mem_append.mp hmem with h | h
          · rcases List.mem_append.mp h with h | h
            · rcases List.mem_append.mp h with h | h
              · have := hl _ h
                simp [Event.inLogin] at this
              · have := ha _ h
                simp [Event.inApprove] at this
            · exact h
          · have := hm pay _ h
            simp [Event.inBuild, Event.inFire] at this
      have hret : (fetchRequirements env jwt2 s2).ending = Ending.ok Flow.ret := by
        rw [fetchRequirements_eq] at hin ⊢
        cases h : s2.http 0 with
        | none => rfl
        | some r =>
          simp only [h] at hin ⊢
          by_cases h2 : 200 ≤ r.status ∧ r.status < 300
          · simp only [h2, and_self, if_true, List.mem_singleton, Event.http.injEq] at hin
            exact absurd h2 (hbad r hin.2).1
          · by_cases h3 : r.status = 402
            · cases h4 : r.data.paymentRequirements <;>
                simp [h2, h3, h4] at hin <;>
                exact absurd h3 (hbad r hin.2).2
            · simp [h2, h3]
      rcases hrest with ⟨_, _, hr, _⟩ | ⟨pay, h3, _, _⟩
      · rw [hr]
        simp [Res.returned, hret]
      · rw [hret] at h3
        simp at h3

/-! ## The claims on the sample data -/

/-- Claim C3 on the sample world: the discovery request of the run is answered
with 402 and the requirement `samplePay`, and the three permits and the three
submissions of the run carry its amount, network and relayer. -/
theorem C3_requirement_kept_across_batch_witness :
    Event.http (Request.drip (some "jwt") "0xRecipient" none)
        (some { status := 402,
                data := { Data.empty with paymentRequirements := some samplePay } }) ∈
      (runForWallet sampleEnv 5 key1 (worldWith happyRun)).trace ∧
    (signedPermits (runForWallet sampleEnv 5 key1 (worldWith happyRun)).trace).length = 3 ∧
    (payments (runForWallet sampleEnv 5 key1 (worldWith happyRun)).trace).length = 3 ∧
    (∀ p ∈ signedPermits (runForWallet sampleEnv 5 key1 (worldWith happyRun)).trace,
      p.authorization.value = "1000000") ∧
    (∀ pm ∈ payments (runForWallet sampleEnv 5 key1 (worldWith happyRun)).trace,
      pm.network = "bsc" ∧ pm.relayerContract = "0xRelayer" ∧
      pm.payload.authorization.value = "1000000") :=
  ⟨by decide!, by decide!, by decide!,
   (C3_requirement_kept_across_batch sampleEnv 5 key1 (worldWith happyRun) (some "jwt")
      "0xRecipient"
      { status := 402, data := { Data.empty with paymentRequirements := some samplePay } }
      "1000000" "bsc" "0xRelayer" (by decide!) rfl rfl).2⟩

/-- Claim C5 on a solver that reports the job solved on the third poll: with
fuel for three rounds `solveTurnstile` polls three times and returns the token
of the third response. -/
theorem C5_token_only_on_status_one_witness :
    (worldWith solvedOnThirdPoll).http 3 = ok200 (solverBody 1 "captcha-token") ∧
    (solveTurnstile sampleEnv 3 (worldWith solvedOnThirdPoll)).value =
      some (some "captcha-token") ∧
    (polls (solveTurnstile sampleEnv 3 (worldWith solvedOnThirdPoll)).trace).length = 3 :=
  ⟨rfl,
   (C5_token_only_on_status_one sampleEnv 3 (worldWith solvedOnThirdPoll) 2
      { status := 200, data := solverBody 1 "job" }
      { status := 200, data := solverBody 1 "captcha-token" }
      rfl (by decide) rfl
      (fun i hi => by
        interval_cases i
        · exact ⟨{ status := 200, data := solverBody 0 "CAPCHA_NOT_READY" }, rfl,
            by decide, by decide⟩
        · exact ⟨{ status := 200, data := solverBody 0 "CAPCHA_NOT_READY" }, rfl,
            by decide, by decide⟩)
      rfl (by decide) rfl (by decide)).1,
   (C5_token_only_on_status_one sampleEnv 3 (worldWith solvedOnThirdPoll) 2
      { status := 200, data := solverBody 1 "job" }
      { status := 200, data := solverBody 1 "captcha-token" }
      rfl (by decide) rfl
      (fun i hi => by
        interval_cases i
        · exact ⟨{ status := 200, data := solverBody 0 "CAPCHA_NOT_READY" }, rfl,
            by decide, by decide⟩
        · exact ⟨{ status := 200, data := solverBody 0 "CAPCHA_NOT_READY" }, rfl,
            by decide, by decide⟩)
      rfl (by decide) rfl (by decide)).2.1⟩

/-- Claim C6 on the sample world with an allowance of 5: two calls of
`approveUnlimited` in a row return after the read, and the allowance is still 5. -/
theorem C6_positive_allowance_skips_approve_witness :
    sampleEnv.TOKEN = some "0xToken" ∧
    approvedWorld.readOk 0 = true ∧ approvedWorld.readOk 1 = true ∧
    0 < approvedWorld.allowance "0xToken" "0xWallet" sampleEnv.RELAYER ∧
    (approveUnlimited sampleEnv "0xWallet" approvedWorld).trace =
      [Event.allowanceCall "0xWallet" "0xRelayer" (some 5),
        Event.log Line.alreadyApproved] ∧
    (approveUnlimited sampleEnv "0xWallet"
      (approveUnlimited sampleEnv "0xWallet" approvedWorld).state).trace =
      [Event.allowanceCall "0xWallet" "0xRelayer" (some 5),
        Event.log Line.alreadyApproved] ∧
    (approveUnlimited sampleEnv "0xWallet"
      (approveUnlimited sampleEnv "0xWallet" approvedWorld).state).state.allowance
        "0xToken" "0xWallet" "0xRelayer" = 5 :=
  ⟨rfl, rfl, rfl, by decide,
   (C6_positive_allowance_skips_approve sampleEnv "0xWallet" "0xToken" approvedWorld rfl rfl
      rfl (by decide)).2.1,
   (C6_positive_allowance_skips_approve sampleEnv "0xWallet" "0xToken" approvedWorld rfl rfl
      rfl (by decide)).2.2.2.1,
   by rw [(C6_positive_allowance_skips_approve sampleEnv "0xWallet" "0xToken" approvedWorld
      rfl rfl rfl (by decide)).2.2.2.2.2]; rfl⟩

/-- Claim C8 on the sample world with a node that fails every read and every
send: `TOKEN` is set, the allowance read fails, `approve` is attempted with
`MaxUint256` and gas limit 60000 and fails, `approveUnlimited` returns, and the
wallet run goes on to the discovery request. -/
theorem C8_approval_never_aborts_witness :
    sampleEnv.TOKEN = some "0xToken" ∧
    brokenNode.readOk 0 = false ∧
    Event.log Line.loggedIn ∈ (runForWallet sampleEnv 5 key1 brokenNode).trace ∧
    (approveUnlimited sampleEnv "0xWallet" brokenNode).returned = true ∧
    ((checkAllowance sampleEnv "0xWallet" brokenNode).value = some 0 ∧
      Event.approveCall sampleEnv.RELAYER MaxUint256 60000 (brokenNode.approveTx 0) ∈
        (approveUnlimited sampleEnv "0xWallet" brokenNode).trace) ∧
    (∃ (wallet : Wallet) (jwt : Option String) (reply : Option Response) (rest : List Event),
      (∀ e ∈ (login sampleEnv 5 key1 brokenNode).trace, Event.inLogin e = true) ∧
      (∀ e ∈ (approveUnlimited sampleEnv wallet.address
          (login sampleEnv 5 key1 brokenNode).state).trace, Event.inApprove e = true) ∧
      (runForWallet sampleEnv 5 key1 brokenNode).trace =
        (login sampleEnv 5 key1 brokenNode).trace ++
        (approveUnlimited sampleEnv wallet.address
          (login sampleEnv 5 key1 brokenNode).state).trace ++
        Event.http (Request.drip jwt sampleEnv.RECIPIENT none) reply :: rest) :=
  ⟨rfl, rfl, by decide!,
   (C8_approval_never_aborts sampleEnv 5 key1 "0xWallet" "0xToken" brokenNode rfl).1,
   (C8_approval_never_aborts sampleEnv 5 key1 "0xWallet" "0xToken" brokenNode rfl).2.2.1 rfl,
   (C8_approval_never_aborts sampleEnv 5 key1 "0xWallet" "0xToken" brokenNode rfl).2.2.2
     (by decide!)⟩

/-- Claim C8 fails as stated.  With `TOKEN` not set, in a world where every
call succeeds, the constructor of the token contract (line 99) raises outside
the `try` block of `checkAllowance`: `approveUnlimited` raises, the wallet run
that had logged in raises with it before any drip request is sent, and the main
function raises after the first key. -/
theorem C8_counterexample_token_unset :
    noTokenEnv.TOKEN = none ∧
    (approveUnlimited noTokenEnv "0xWallet" (worldWith happyRun)).returned = false ∧
    (approveUnlimited noTokenEnv "0xWallet" (worldWith happyRun)).error =
      some (JsError.ethers "invalid contract address or ENS name") ∧
    Event.log Line.loggedIn ∈ (runForWallet noTokenEnv 5 key1 (worldWith happyRun)).trace ∧
    (runForWallet noTokenEnv 5 key1 (worldWith happyRun)).error =
      some (JsError.ethers "invalid contract address or ENS name") ∧
    (runForWallet noTokenEnv 5 key1 (worldWith happyRun)).trace.filter Event.inFetch = [] ∧
    (main noTokenEnv 5 sampleText (worldWith twoHappyRuns)).error =
      some (JsError.ethers "invalid contract address or ENS name") ∧
    startedKeys (main noTokenEnv 5 sampleText (worldWith twoHappyRuns)).trace = [key1] := by
  refine ⟨rfl, by decide!, by decide!, by decide!, by decide!, by decide!, by decide!,
    by decide!⟩

end AutoMint
